import Mathlib

/-!
Feature style resolver of `assets/dashExtensions_default.js`.

A shallow embedding of `window.dashExtensions.default.function0`, the function the
map widget calls for every rendered feature to obtain its style, followed by the
properties of that function.

Modelling conventions.

* A JavaScript number is `JSNum`: `NaN`, the two infinities, or a finite value, which
  is the rational it denotes (the literals `0.3` and `0.7` are `3/10` and `7/10`).
  Only comparisons are made on numbers, and they are those of IEEE 754: every
  comparison with `NaN` is false.
* A JavaScript value is `JSVal`; objects and arrays met as values are references.
* `Number(value)` on a string or an object is a built-in of the language: it is the
  parameter `Host`.
* A plain object (the style, the feature's properties) is a list of key/value pairs
  in insertion order.
-/

namespace DashExtensions

/-! ## Numbers -/

/-- A JavaScript number. -/
inductive JSNum where
  | nan
  | negInf
  | fin (q : ℚ)
  | posInf
  deriving DecidableEq

namespace JSNum

/-- The operator `a < b` on numbers. -/
def lt : JSNum → JSNum → Bool
  | nan, _ => false
  | _, nan => false
  | negInf, negInf => false
  | negInf, _ => true
  | fin _, negInf => false
  | fin a, fin b => decide (a < b)
  | fin _, posInf => true
  | posInf, _ => false

/-- The operator `a >= b` on numbers. -/
def ge : JSNum → JSNum → Bool
  | nan, _ => false
  | _, nan => false
  | _, negInf => true
  | negInf, _ => false
  | fin a, fin b => decide (b ≤ a)
  | fin _, posInf => false
  | posInf, _ => true

/-- The operator `a <= b` on numbers. -/
def le (a b : JSNum) : Bool := ge b a

/-- The built-in `isNaN` on a number. -/
def isNaN : JSNum → Bool
  | nan => true
  | _ => false

end JSNum

/-! ## Values -/

/-- A JavaScript value; `obj ref` is an object or an array, known by its reference. -/
inductive JSVal where
  | undefined
  | null
  | bool (b : Bool)
  | num (x : JSNum)
  | str (s : String)
  | obj (ref : Nat)
  deriving DecidableEq

/-- The conversions to a number that depend on the text of a string or on the content
of an object. -/
structure Host where
  stringToNumber : String → JSNum
  objectToNumber : Nat → JSNum

/-- The built-in `Number(value)`. -/
def toNumber (host : Host) : JSVal → JSNum
  | .undefined => .nan
  | .null => .fin 0
  | .bool true => .fin 1
  | .bool false => .fin 0
  | .num x => x
  | .str s => host.stringToNumber s
  | .obj r => host.objectToNumber r

/-- The operator `a === b`. -/
def strictEq : JSVal → JSVal → Bool
  | .undefined, .undefined => true
  | .null, .null => true
  | .bool a, .bool b => a == b
  | .num .nan, .num _ => false
  | .num _, .num .nan => false
  | .num a, .num b => decide (a = b)
  | .str a, .str b => a == b
  | .obj a, .obj b => a == b
  | _, _ => false

/-! ## Arrays -/

/-- The scan of `Array.prototype.indexOf` from position `i` on. -/
def indexOfFrom (v : JSVal) : List JSVal → Nat → Int
  | [], _ => -1
  | x :: xs, i => if strictEq x v then (i : Int) else indexOfFrom v xs (i + 1)

/-- The built-in `labels.indexOf(value)`: first position strictly equal to `value`, or `-1`. -/
def indexOf (labels : List JSVal) (v : JSVal) : Int :=
  indexOfFrom v labels 0

/-- The read `classes[i]` used in a comparison: out of range it is `undefined`, which
a comparison converts to `NaN`. -/
def classAt (classes : List JSNum) (i : Int) : JSNum :=
  if 0 ≤ i then classes.getD i.toNat .nan else .nan

/-- The read `colorscale[i]`: `undefined` out of range. -/
def colorAt (colorscale : List JSVal) (i : Int) : JSVal :=
  if 0 ≤ i then colorscale.getD i.toNat .undefined else .undefined

/-! ## Objects -/

/-- A plain object: its own properties in insertion order. -/
abbrev Obj := List (String × JSVal)

/-- The value stored under `key`, if the object has that key. -/
def Obj.get? (o : Obj) (key : String) : Option JSVal :=
  match o with
  | [] => none
  | (k, v) :: rest => if k = key then some v else Obj.get? rest key

/-- The read `o[key]`: `undefined` when the key is absent. -/
def Obj.prop (o : Obj) (key : String) : JSVal :=
  (o.get? key).getD .undefined

/-- One `key: value` entry of an object literal written after a spread: the value of an
existing key is replaced where it stands, a new key is added at the end. -/
def Obj.set (o : Obj) (key : String) (v : JSVal) : Obj :=
  match o with
  | [] => [(key, v)]
  | (k, w) :: rest => if k = key then (k, v) :: rest else (k, w) :: Obj.set rest key v

/-! ## The styling context and the feature -/

/-- The fields of `context.hideout`. `labels` is `none` when it is not an array. -/
structure Hideout where
  classes : List JSNum
  colorscale : List JSVal
  style : Obj
  colorProp : String
  categorical : JSVal
  labels : Option (List JSVal)

/-- A feature: only `feature.properties` is read. -/
structure Feature where
  properties : Obj

/-- The constant `noDataColor`. -/
def noDataColor : JSVal := .str "#d3d3d3"

/-- The literal `{...style, fillColor: noDataColor, fillOpacity: 0.3}`. -/
def noDataStyle (style : Obj) : Obj :=
  (style.set "fillColor" noDataColor).set "fillOpacity" (.num (.fin (3 / 10)))

/-- The border entries `weight: 2, color: "#333", opacity: 1` of an object literal. -/
def withBorder (o : Obj) : Obj :=
  ((o.set "weight" (.num (.fin 2))).set "color" (.str "#333")).set "opacity" (.num (.fin 1))

/-- The literal `{...style, fillColor: c, fillOpacity: 0.7}`. -/
def filledStyle (style : Obj) (c : JSVal) : Obj :=
  (style.set "fillColor" c).set "fillOpacity" (.num (.fin (7 / 10)))

/-- The `for` loop of both numeric branches, at counter `i` with `fuel` iterations left:
the first `i` with `numValue >= classes[i] && numValue < classes[i + 1]`, or `init` when
the loop ends without a `break`. -/
def bucketLoop (classes : List JSNum) (numValue : JSNum) (init : Int) : Nat → Nat → Int
  | 0, _ => init
  | fuel + 1, i =>
    if numValue.ge (classAt classes i) && numValue.lt (classAt classes ((i : Int) + 1)) then
      (i : Int)
    else bucketLoop classes numValue init fuel (i + 1)

/-- The index `colorIndex` of the branch `colorProp === "delta"` (source lines 56-70). -/
def deltaIndex (classes : List JSNum) (colorscale : List JSVal) (numValue : JSNum) : Int :=
  let colorIndex := bucketLoop classes numValue 0 (classes.length - 1) 0
  let colorIndex :=
    if numValue.ge (classAt classes ((classes.length : Int) - 1)) then
      (colorscale.length : Int) - 1
    else colorIndex
  if numValue.lt (classAt classes 0) then 0 else colorIndex

/-- The index `colorIndex` of the generic numeric branch (source lines 93-107). -/
def numericIndex (classes : List JSNum) (colorscale : List JSVal) (numValue : JSNum) : Int :=
  let colorIndex := bucketLoop classes numValue (-1) (classes.length - 1) 0
  let colorIndex :=
    if colorIndex = -1 && numValue.ge (classAt classes ((classes.length : Int) - 1)) then
      (colorscale.length : Int) - 1
    else colorIndex
  if numValue.lt (classAt classes 0) then 0 else colorIndex

/-- The function `function0(feature, context)`, with `h = context.hideout`. -/
def function0 (host : Host) (feature : Feature) (h : Hideout) : Obj :=
  let value := feature.properties.prop h.colorProp
  if value = .undefined ∨ value = .null then
    noDataStyle h.style
  else
    match h.categorical, h.labels with
    | .bool true, some labels =>
      let index := indexOf labels value
      if 0 ≤ index ∧ index < (h.colorscale.length : Int) then
        withBorder (filledStyle h.style (colorAt h.colorscale index))
      else
        withBorder (noDataStyle h.style)
    | _, _ =>
      if h.colorProp = "delta" then
        let numValue := toNumber host value
        if numValue.isNaN then
          noDataStyle h.style
        else
          filledStyle h.style (colorAt h.colorscale (deltaIndex h.classes h.colorscale numValue))
      else if h.colorProp = "none" then
        h.style
      else
        let numValue := toNumber host value
        if numValue.isNaN then
          noDataStyle h.style
        else
          let colorIndex := numericIndex h.classes h.colorscale numValue
          if 0 ≤ colorIndex ∧ colorIndex < (h.colorscale.length : Int) then
            withBorder (filledStyle h.style (colorAt h.colorscale colorIndex))
          else
            noDataStyle h.style

/-! ## Vocabulary of the properties -/

/-- The style `result` is `base` overridden by `entries`: every listed key holds the listed
value, and every other key is present or absent in `result` exactly as in `base`, with the
same value. -/
def Overridden (base : Obj) (entries : List (String × JSVal)) (result : Obj) : Prop :=
  (∀ kv ∈ entries, result.get? kv.1 = some kv.2) ∧
  (∀ key, (∀ kv ∈ entries, kv.1 ≠ key) → result.get? key = base.get? key)

/-- The thresholds are ascending: each one is `<=` the next. -/
def ascending : List JSNum → Bool
  | a :: b :: rest => a.le b && ascending (b :: rest)
  | _ => true

/-- The value `v` lies in the interval of index `i`: `classes[i] <= v < classes[i + 1]`. -/
def inBucket (classes : List JSNum) (v : JSNum) (i : Nat) : Bool :=
  match classes[i]?, classes[i + 1]? with
  | some a, some b => a.le v && v.lt b
  | _, _ => false

/-- The position `i` is the first one of `labels` that holds a value strictly equal to `v`. -/
def FirstPosition (labels : List JSVal) (v : JSVal) (i : Nat) : Prop :=
  (∃ x, labels[i]? = some x ∧ strictEq x v = true) ∧
    ∀ j y, j < i → labels[j]? = some y → strictEq y v = false

/-- A host whose string and object conversions all fail. -/
def nanHost : Host := ⟨fun _ => .nan, fun _ => .nan⟩

/-! ## Sample inputs -/

/-- Thresholds `[0, 10, 20]`. -/
def sampleClasses : List JSNum := [.fin 0, .fin 10, .fin 20]

/-- Colours `["a", "b", "c"]`. -/
def sampleColors : List JSVal := [.str "a", .str "b", .str "c"]

/-- A base style `{weight: 1, color: "white"}`. -/
def sampleStyle : Obj := [("weight", .num (.fin 1)), ("color", .str "white")]

/-- A feature `{properties: {name: "Tula"}}`: it has none of the coloured properties. -/
def bareFeature : Feature := ⟨[("name", .str "Tula")]⟩

/-- A feature whose single property `key` holds the number `n`. -/
def numberFeature (key : String) (n : ℚ) : Feature := ⟨[(key, .num (.fin n))]⟩

/-- A feature whose single property `key` holds the string `text`. -/
def stringFeature (key : String) (text : String) : Feature := ⟨[(key, .str text)]⟩

/-- A numeric context: the sample thresholds, colours and style, not categorical. -/
def numericHideout (colorProp : String) : Hideout :=
  ⟨sampleClasses, sampleColors, sampleStyle, colorProp, .bool false, none⟩

/-- A categorical context over the property `colorProp`. -/
def categoricalHideout (colorProp : String) (labels colorscale : List JSVal) : Hideout :=
  ⟨[], colorscale, sampleStyle, colorProp, .bool true, some labels⟩

/-- A numeric context with thresholds out of order, `[10, 0, 20, 5]`. -/
def unsortedHideout (colorProp : String) : Hideout :=
  ⟨[.fin 10, .fin 0, .fin 20, .fin 5], sampleColors, sampleStyle, colorProp, .bool false, none⟩

/-- A numeric context with the sample thresholds and a single colour. -/
def oneColorHideout (colorProp : String) : Hideout :=
  ⟨sampleClasses, [.str "a"], sampleStyle, colorProp, .bool false, none⟩

/-- A numeric context with no threshold. -/
def noClassHideout (colorProp : String) : Hideout :=
  ⟨[], sampleColors, sampleStyle, colorProp, .bool false, none⟩

/-- A numeric context with the sample thresholds and no colour. -/
def noColorHideout (colorProp : String) : Hideout :=
  ⟨sampleClasses, [], sampleStyle, colorProp, .bool false, none⟩

/-- A numeric context whose base style has a key outside the five that are overridden. -/
def dashedHideout (colorProp : String) : Hideout :=
  ⟨sampleClasses, sampleColors, [("dashArray", .str "4"), ("weight", .num (.fin 1))], colorProp,
    .bool false, none⟩

/-- A context over the property `"pop"` with the sample tables and `labels = []`. -/
def emptyLabelsHideout (categorical : JSVal) : Hideout :=
  ⟨sampleClasses, sampleColors, sampleStyle, "pop", categorical, some []⟩

/-- A numeric context with four thresholds, `[0, 10, 20, 30]`, and two colours only. -/
def shortScaleHideout (colorProp : String) : Hideout :=
  ⟨[.fin 0, .fin 10, .fin 20, .fin 30], [.str "a", .str "b"], sampleStyle, colorProp,
    .bool false, none⟩

/-- The context `h` with its field `categorical` replaced. -/
def withCategorical (h : Hideout) (categorical : JSVal) : Hideout :=
  ⟨h.classes, h.colorscale, h.style, h.colorProp, categorical, h.labels⟩

/-- The context `h` read through the property `colorProp`. -/
def withColorProp (h : Hideout) (colorProp : String) : Hideout :=
  ⟨h.classes, h.colorscale, h.style, colorProp, h.categorical, h.labels⟩

/-! ## Lemmas on numbers -/

namespace JSNum

theorem le_trans_js {a b c : JSNum} (hab : a.le b = true) (hbc : b.le c = true) :
    a.le c = true := by
  cases a <;> cases b <;> cases c <;> simp_all [le, ge]
  exact le_trans hab hbc

theorem lt_false_of_ge {v a : JSNum} (h : v.ge a = true) : v.lt a = false := by
  cases v <;> cases a <;> simp_all [lt, ge]

theorem lt_false_of_le_of_ge {v a b : JSNum} (hab : a.le b = true) (h : v.ge b = true) :
    v.lt a = false := by
  cases v <;> cases a <;> cases b <;> simp_all [lt, le, ge]
  exact le_trans hab h

theorem ge_false_of_lt {v a : JSNum} (h : v.lt a = true) : v.ge a = false := by
  cases v <;> cases a <;> simp_all [lt, ge]

theorem ge_false_of_lt_of_le {v a b : JSNum} (h : v.lt a = true) (hab : a.le b = true) :
    v.ge b = false := by
  cases v <;> cases a <;> cases b <;> simp_all [lt, le, ge]
  exact lt_of_lt_of_le h hab

end JSNum

/-! ## Lemmas on objects -/

theorem Obj.get?_set_self (o : Obj) (key : String) (v : JSVal) :
    (o.set key v).get? key = some v := by
  induction o with
  | nil => simp [Obj.set, Obj.get?]
  | cons p rest ih =>
    obtain ⟨k, w⟩ := p
    by_cases hk : k = key
    · simp [Obj.set, Obj.get?, hk]
    · simp [Obj.set, Obj.get?, hk, ih]

theorem Obj.get?_set_ne (o : Obj) {key other : String} (v : JSVal) (hne : key ≠ other) :
    (o.set key v).get? other = o.get? other := by
  induction o with
  | nil => simp [Obj.set, Obj.get?, hne]
  | cons p rest ih =>
    obtain ⟨k, w⟩ := p
    by_cases hk : k = key
    · subst hk
      simp [Obj.set, Obj.get?, hne]
    · by_cases hk2 : k = other
      · subst hk2
        simp [Obj.set, Obj.get?, hk]
      · simp [Obj.set, Obj.get?, hk, hk2, ih]

theorem overridden_noDataStyle (style : Obj) :
    Overridden style [("fillColor", .str "#d3d3d3"), ("fillOpacity", .num (.fin (3 / 10)))]
      (noDataStyle style) := by
  constructor
  · intro kv hkv
    simp only [List.mem_cons, List.mem_singleton, List.not_mem_nil, or_false] at hkv
    rcases hkv with rfl | rfl
    · show ((style.set "fillColor" noDataColor).set "fillOpacity" _).get? "fillColor" = _
      rw [Obj.get?_set_ne _ _ (by decide), Obj.get?_set_self]
      rfl
    · exact Obj.get?_set_self _ _ _
  · intro key hkey
    have h1 : "fillColor" ≠ key := hkey ("fillColor", .str "#d3d3d3") (by simp)
    have h2 : "fillOpacity" ≠ key := hkey ("fillOpacity", .num (.fin (3 / 10))) (by simp)
    show ((style.set "fillColor" noDataColor).set "fillOpacity" _).get? key = _
    rw [Obj.get?_set_ne _ _ h2, Obj.get?_set_ne _ _ h1]

theorem overridden_filledStyle (style : Obj) (c : JSVal) :
    Overridden style [("fillColor", c), ("fillOpacity", .num (.fin (7 / 10)))]
      (filledStyle style c) := by
  constructor
  · intro kv hkv
    simp only [List.mem_cons, List.mem_singleton, List.not_mem_nil, or_false] at hkv
    rcases hkv with rfl | rfl
    · show ((style.set "fillColor" c).set "fillOpacity" _).get? "fillColor" = _
      rw [Obj.get?_set_ne _ _ (by decide), Obj.get?_set_self]
    · exact Obj.get?_set_self _ _ _
  · intro key hkey
    have h1 : "fillColor" ≠ key := hkey ("fillColor", c) (by simp)
    have h2 : "fillOpacity" ≠ key := hkey ("fillOpacity", .num (.fin (7 / 10))) (by simp)
    show ((style.set "fillColor" c).set "fillOpacity" _).get? key = _
    rw [Obj.get?_set_ne _ _ h2, Obj.get?_set_ne _ _ h1]

/-- Adding the border entries to a style that overrides the two fill keys gives a style that
overrides the five keys. -/
theorem overridden_withBorder {style o : Obj} {c op : JSVal}
    (ho : Overridden style [("fillColor", c), ("fillOpacity", op)] o) :
    Overridden style
      [("fillColor", c), ("fillOpacity", op), ("weight", .num (.fin 2)), ("color", .str "#333"),
        ("opacity", .num (.fin 1))] (withBorder o) := by
  obtain ⟨hin, hout⟩ := ho
  have hc := hin ("fillColor", c) (by simp)
  have hop := hin ("fillOpacity", op) (by simp)
  simp only at hc hop
  constructor
  · intro kv hkv
    simp only [List.mem_cons, List.mem_singleton, List.not_mem_nil, or_false] at hkv
    rcases hkv with rfl | rfl | rfl | rfl | rfl
    · show (((o.set "weight" _).set "color" _).set "opacity" _).get? "fillColor" = _
      rw [Obj.get?_set_ne _ _ (by decide), Obj.get?_set_ne _ _ (by decide),
        Obj.get?_set_ne _ _ (by decide), hc]
    · show (((o.set "weight" _).set "color" _).set "opacity" _).get? "fillOpacity" = _
      rw [Obj.get?_set_ne _ _ (by decide), Obj.get?_set_ne _ _ (by decide),
        Obj.get?_set_ne _ _ (by decide), hop]
    · show (((o.set "weight" _).set "color" _).set "opacity" _).get? "weight" = _
      rw [Obj.get?_set_ne _ _ (by decide), Obj.get?_set_ne _ _ (by decide), Obj.get?_set_self]
    · show (((o.set "weight" _).set "color" _).set "opacity" _).get? "color" = _
      rw [Obj.get?_set_ne _ _ (by decide), Obj.get?_set_self]
    · exact Obj.get?_set_self _ _ _
  · intro key hkey
    have h1 : "fillColor" ≠ key := hkey ("fillColor", c) (by simp)
    have h2 : "fillOpacity" ≠ key := hkey ("fillOpacity", op) (by simp)
    have h3 : "weight" ≠ key := hkey ("weight", .num (.fin 2)) (by simp)
    have h4 : "color" ≠ key := hkey ("color", .str "#333") (by simp)
    have h5 : "opacity" ≠ key := hkey ("opacity", .num (.fin 1)) (by simp)
    show (((o.set "weight" _).set "color" _).set "opacity" _).get? key = _
    rw [Obj.get?_set_ne _ _ h5, Obj.get?_set_ne _ _ h4, Obj.get?_set_ne _ _ h3]
    apply hout
    intro kv hkv
    simp only [List.mem_cons, List.mem_singleton, List.not_mem_nil, or_false] at hkv
    rcases hkv with rfl | rfl
    · exact h1
    · exact h2

/-! ## Lemmas on the thresholds and the loop -/

theorem classAt_natCast (classes : List JSNum) (i : Nat) :
    classAt classes (i : Int) = classes.getD i .nan := by
  simp [classAt]

theorem classAt_natCast_succ (classes : List JSNum) (i : Nat) :
    classAt classes ((i : Int) + 1) = classes.getD (i + 1) .nan := by
  have h : ((i : Int) + 1) = ((i + 1 : Nat) : Int) := by push_cast; rfl
  rw [h, classAt_natCast]

theorem classAt_zero (classes : List JSNum) : classAt classes 0 = classes.getD 0 .nan := by
  simp [classAt]

theorem classAt_last (classes : List JSNum) :
    classAt classes ((classes.length : Int) - 1) = classes.getLast?.getD .nan := by
  cases hc : classes with
  | nil => simp [classAt]
  | cons a rest =>
    have h : (((a :: rest).length : Int) - 1) = ((rest.length : Nat) : Int) := by
      simp
    rw [h, classAt_natCast, List.getLast?_eq_getElem?]
    simp [List.getD_eq_getElem?_getD]

theorem inBucket_eq (classes : List JSNum) (v : JSNum) (i : Nat) :
    inBucket classes v i
      = (v.ge (classAt classes i) && v.lt (classAt classes ((i : Int) + 1))) := by
  rw [classAt_natCast, classAt_natCast_succ, inBucket]
  simp only [List.getD_eq_getElem?_getD]
  cases h1 : classes[i]? <;> cases h2 : classes[i + 1]? <;>
    cases v <;> simp [JSNum.le, JSNum.ge, JSNum.lt]

theorem inBucket_lt_length {classes : List JSNum} {v : JSNum} {i : Nat}
    (h : inBucket classes v i = true) : i + 1 < classes.length := by
  unfold inBucket at h
  by_contra hlt
  have : classes[i + 1]? = none := List.getElem?_eq_none (by omega)
  rw [this] at h
  cases h1 : classes[i]? <;> simp [h1] at h

theorem ascending_adjacent : ∀ (classes : List JSNum), ascending classes = true →
    ∀ i, i + 1 < classes.length →
      (classes.getD i .nan).le (classes.getD (i + 1) .nan) = true
  | [], _, i, hi => by simp at hi
  | [_], _, i, hi => by simp at hi
  | a :: b :: rest, hasc, i, hi => by
    simp only [ascending, Bool.and_eq_true] at hasc
    cases i with
    | zero => simpa using hasc.1
    | succ k =>
      have := ascending_adjacent (b :: rest) hasc.2 k (by simpa using hi)
      simpa using this

theorem ascending_le_of_lt {classes : List JSNum} (hasc : ascending classes = true)
    {i j : Nat} (hij : i < j) (hj : j < classes.length) :
    (classes.getD i .nan).le (classes.getD j .nan) = true := by
  induction j with
  | zero => omega
  | succ k ih =>
    have hadj := ascending_adjacent classes hasc k hj
    rcases Nat.lt_succ_iff_lt_or_eq.mp hij with hlt | heq
    · exact JSNum.le_trans_js (ih hlt (by omega)) hadj
    · subst heq
      exact hadj

/-- With ascending thresholds, a value at or above `classes[j]` is not below any earlier
threshold. -/
theorem lt_false_of_ascending {classes : List JSNum} (hasc : ascending classes = true)
    {v : JSNum} {i j : Nat} (hij : i ≤ j) (hj : j < classes.length)
    (hv : v.ge (classes.getD j .nan) = true) : v.lt (classes.getD i .nan) = false := by
  rcases Nat.lt_or_eq_of_le hij with hlt | heq
  · exact JSNum.lt_false_of_le_of_ge (ascending_le_of_lt hasc hlt hj) hv
  · subst heq
    exact JSNum.lt_false_of_ge hv

/-- With ascending thresholds, a value below `classes[i]` is not at or above any later
threshold. -/
theorem ge_false_of_ascending {classes : List JSNum} (hasc : ascending classes = true)
    {v : JSNum} {i j : Nat} (hij : i ≤ j) (hj : j < classes.length)
    (hv : v.lt (classes.getD i .nan) = true) : v.ge (classes.getD j .nan) = false := by
  rcases Nat.lt_or_eq_of_le hij with hlt | heq
  · exact JSNum.ge_false_of_lt_of_le hv (ascending_le_of_lt hasc hlt hj)
  · subst heq
    exact JSNum.ge_false_of_lt hv

/-- The loop stops at the first index whose interval holds the value. -/
theorem bucketLoop_eq_of_first (classes : List JSNum) (v : JSNum) (init : Int) :
    ∀ (fuel s i : Nat), s ≤ i → i < s + fuel →
      (∀ j, s ≤ j → j < i → inBucket classes v j = false) →
      inBucket classes v i = true →
      bucketLoop classes v init fuel s = (i : Int)
  | 0, s, i, hsi, hlt, _, _ => by omega
  | fuel + 1, s, i, hsi, hlt, hbefore, hat => by
    rcases Nat.lt_or_eq_of_le hsi with h | h
    · have hs := hbefore s (le_refl s) h
      rw [inBucket_eq] at hs
      rw [bucketLoop, hs]
      simp only [Bool.false_eq_true, if_false]
      exact bucketLoop_eq_of_first classes v init fuel (s + 1) i h (by omega)
        (fun j hj hji => hbefore j (by omega) hji) hat
    · subst h
      rw [inBucket_eq] at hat
      rw [bucketLoop, hat]
      simp

/-- The loop keeps its initial index when no interval in its range holds the value. -/
theorem bucketLoop_eq_init (classes : List JSNum) (v : JSNum) (init : Int) :
    ∀ (fuel s : Nat), (∀ j, s ≤ j → j < s + fuel → inBucket classes v j = false) →
      bucketLoop classes v init fuel s = init
  | 0, _, _ => rfl
  | fuel + 1, s, hnone => by
    have hs := hnone s (le_refl s) (by omega)
    rw [inBucket_eq] at hs
    rw [bucketLoop, hs]
    simp only [Bool.false_eq_true, if_false]
    exact bucketLoop_eq_init classes v init fuel (s + 1)
      (fun j hj hlt => hnone j (by omega) (by omega))

theorem classAt_last_getD {classes : List JSNum} (hne : classes ≠ []) :
    classAt classes ((classes.length : Int) - 1) = classes.getD (classes.length - 1) .nan := by
  have hpos : 0 < classes.length := List.length_pos.mpr hne
  have h : ((classes.length : Int) - 1) = ((classes.length - 1 : Nat) : Int) := by omega
  rw [h, classAt_natCast]

theorem colorAt_natCast (colorscale : List JSVal) (i : Nat) :
    colorAt colorscale (i : Int) = colorscale.getD i .undefined := by
  simp [colorAt]

/-- What an interval that holds the value says in terms of the reads of the code. -/
theorem inBucket_reads {classes : List JSNum} {v : JSNum} {i : Nat}
    (hin : inBucket classes v i = true) :
    i + 1 < classes.length ∧ v.ge (classes.getD i .nan) = true ∧
      v.lt (classes.getD (i + 1) .nan) = true := by
  refine ⟨inBucket_lt_length hin, ?_⟩
  rw [inBucket_eq, classAt_natCast, classAt_natCast_succ, Bool.and_eq_true] at hin
  exact hin

/-- With ascending thresholds no interval before the one that holds the value holds it. -/
theorem inBucket_false_before {classes : List JSNum} (hasc : ascending classes = true)
    {v : JSNum} {i j : Nat} (hin : inBucket classes v i = true) (hji : j < i) :
    inBucket classes v j = false := by
  obtain ⟨hlen, hge, _⟩ := inBucket_reads hin
  rw [inBucket_eq, classAt_natCast, classAt_natCast_succ,
    lt_false_of_ascending hasc (Nat.succ_le_of_lt hji) (by omega) hge]
  simp

/-- With ascending thresholds at most one interval holds the value. -/
theorem inBucket_unique {classes : List JSNum} (hasc : ascending classes = true)
    {v : JSNum} {i j : Nat} (hi : inBucket classes v i = true)
    (hj : inBucket classes v j = true) : j = i := by
  rcases Nat.lt_trichotomy j i with h | h | h
  · rw [inBucket_false_before hasc hi h] at hj
    exact absurd hj (by decide)
  · exact h
  · rw [inBucket_false_before hasc hj h] at hi
    exact absurd hi (by decide)

/-- With ascending thresholds the loop finds the interval that holds the value. -/
theorem bucketLoop_of_inBucket {classes : List JSNum} (hasc : ascending classes = true)
    {v : JSNum} {i : Nat} (init : Int) (hin : inBucket classes v i = true) :
    bucketLoop classes v init (classes.length - 1) 0 = (i : Int) := by
  have hlen := inBucket_lt_length hin
  exact bucketLoop_eq_of_first classes v init (classes.length - 1) 0 i (Nat.zero_le i)
    (by omega) (fun j _ hji => inBucket_false_before hasc hin hji) hin

/-- With ascending thresholds a value inside an interval is below the last threshold. -/
theorem ge_last_false_of_inBucket {classes : List JSNum} (hasc : ascending classes = true)
    {v : JSNum} {i : Nat} (hin : inBucket classes v i = true) :
    v.ge (classAt classes ((classes.length : Int) - 1)) = false := by
  obtain ⟨hlen, _, hlt⟩ := inBucket_reads hin
  have hne : classes ≠ [] := by
    intro h
    rw [h] at hlen
    simp at hlen
  rw [classAt_last_getD hne]
  exact ge_false_of_ascending hasc (by omega) (by omega) hlt

/-- With ascending thresholds a value inside an interval is not below the first threshold. -/
theorem lt_first_false_of_inBucket {classes : List JSNum} (hasc : ascending classes = true)
    {v : JSNum} {i : Nat} (hin : inBucket classes v i = true) :
    v.lt (classAt classes 0) = false := by
  obtain ⟨hlen, hge, _⟩ := inBucket_reads hin
  rw [classAt_zero]
  exact lt_false_of_ascending hasc (Nat.zero_le i) (by omega) hge

/-! ## The branches of `function0` -/

theorem function0_of_absent (host : Host) (feature : Feature) (h : Hideout)
    (hv : feature.properties.prop h.colorProp = .undefined ∨
      feature.properties.prop h.colorProp = .null) :
    function0 host feature h = noDataStyle h.style := by
  unfold function0
  simp only [hv, if_true]

theorem function0_of_categorical (host : Host) (feature : Feature) (h : Hideout)
    (labels : List JSVal)
    (hu : feature.properties.prop h.colorProp ≠ .undefined)
    (hn : feature.properties.prop h.colorProp ≠ .null)
    (hcat : h.categorical = .bool true) (hlab : h.labels = some labels) :
    function0 host feature h
      = if 0 ≤ indexOf labels (feature.properties.prop h.colorProp) ∧
            indexOf labels (feature.properties.prop h.colorProp) < (h.colorscale.length : Int) then
          withBorder (filledStyle h.style
            (colorAt h.colorscale (indexOf labels (feature.properties.prop h.colorProp))))
        else withBorder (noDataStyle h.style) := by
  unfold function0
  simp only [hu, hn, or_self, if_false, hcat, hlab]

theorem function0_of_not_categorical (host : Host) (feature : Feature) (h : Hideout)
    (hu : feature.properties.prop h.colorProp ≠ .undefined)
    (hn : feature.properties.prop h.colorProp ≠ .null)
    (hnc : h.categorical ≠ .bool true ∨ h.labels = none) :
    function0 host feature h
      = if h.colorProp = "delta" then
          if (toNumber host (feature.properties.prop h.colorProp)).isNaN then noDataStyle h.style
          else filledStyle h.style (colorAt h.colorscale
            (deltaIndex h.classes h.colorscale (toNumber host (feature.properties.prop h.colorProp))))
        else if h.colorProp = "none" then h.style
        else
          if (toNumber host (feature.properties.prop h.colorProp)).isNaN then noDataStyle h.style
          else
            if 0 ≤ numericIndex h.classes h.colorscale
                  (toNumber host (feature.properties.prop h.colorProp)) ∧
                numericIndex h.classes h.colorscale
                  (toNumber host (feature.properties.prop h.colorProp)) < (h.colorscale.length : Int) then
              withBorder (filledStyle h.style (colorAt h.colorscale
                (numericIndex h.classes h.colorscale
                  (toNumber host (feature.properties.prop h.colorProp)))))
            else noDataStyle h.style := by
  unfold function0
  simp only [hu, hn, or_self, if_false]
  split
  · next hc hl =>
    rcases hnc with h1 | h1
    · exact absurd hc h1
    · rw [h1] at hl
      exact absurd hl (by simp)
  · rfl

theorem function0_of_delta (host : Host) (feature : Feature) (h : Hideout)
    (hu : feature.properties.prop h.colorProp ≠ .undefined)
    (hn : feature.properties.prop h.colorProp ≠ .null)
    (hnc : h.categorical ≠ .bool true ∨ h.labels = none)
    (hd : h.colorProp = "delta")
    (hnum : (toNumber host (feature.properties.prop h.colorProp)).isNaN = false) :
    function0 host feature h
      = filledStyle h.style (colorAt h.colorscale
          (deltaIndex h.classes h.colorscale (toNumber host (feature.properties.prop h.colorProp)))) := by
  rw [function0_of_not_categorical host feature h hu hn hnc, if_pos hd, hnum]
  simp

theorem function0_of_numeric (host : Host) (feature : Feature) (h : Hideout)
    (hu : feature.properties.prop h.colorProp ≠ .undefined)
    (hn : feature.properties.prop h.colorProp ≠ .null)
    (hnc : h.categorical ≠ .bool true ∨ h.labels = none)
    (hd : h.colorProp ≠ "delta") (hnone : h.colorProp ≠ "none")
    (hnum : (toNumber host (feature.properties.prop h.colorProp)).isNaN = false) :
    function0 host feature h
      = if 0 ≤ numericIndex h.classes h.colorscale
              (toNumber host (feature.properties.prop h.colorProp)) ∧
            numericIndex h.classes h.colorscale
              (toNumber host (feature.properties.prop h.colorProp)) < (h.colorscale.length : Int) then
          withBorder (filledStyle h.style (colorAt h.colorscale
            (numericIndex h.classes h.colorscale
              (toNumber host (feature.properties.prop h.colorProp)))))
        else noDataStyle h.style := by
  rw [function0_of_not_categorical host feature h hu hn hnc, if_neg hd, if_neg hnone, hnum]
  simp

/-! ## Lemmas on the two bucket indices -/

theorem JSNum.isNaN_false_of_ge {v a : JSNum} (h : v.ge a = true) : v.isNaN = false := by
  cases v <;> simp_all [JSNum.ge, JSNum.isNaN]

theorem JSNum.isNaN_false_of_lt {v a : JSNum} (h : v.lt a = true) : v.isNaN = false := by
  cases v <;> simp_all [JSNum.lt, JSNum.isNaN]

theorem JSNum.ge_nan (v : JSNum) : v.ge .nan = false := by
  cases v <;> rfl

theorem JSNum.lt_nan (v : JSNum) : v.lt .nan = false := by
  cases v <;> rfl

theorem colorAt_last {colorscale : List JSVal} {c : JSVal}
    (hc : colorscale.getLast? = some c) :
    colorAt colorscale ((colorscale.length : Int) - 1) = c ∧ 0 < colorscale.length := by
  cases hcs : colorscale with
  | nil => simp [hcs] at hc
  | cons a rest =>
    have h : (((a :: rest).length : Int) - 1) = ((rest.length : Nat) : Int) := by simp
    rw [h, colorAt_natCast]
    rw [hcs, List.getLast?_eq_getElem?] at hc
    simp only [List.length_cons, Nat.add_sub_cancel] at hc
    simp [List.getD_eq_getElem?_getD, hc]

/-- What `classes.getLast? = some top` says in terms of the reads of the code. -/
theorem classAt_of_getLast {classes : List JSNum} {top : JSNum}
    (ht : classes.getLast? = some top) :
    classes ≠ [] ∧ classAt classes ((classes.length : Int) - 1) = top ∧
      classes.getD (classes.length - 1) .nan = top := by
  have hne : classes ≠ [] := by
    intro h
    simp [h] at ht
  have h1 : classAt classes ((classes.length : Int) - 1) = top := by
    rw [classAt_last, ht]
    rfl
  refine ⟨hne, h1, ?_⟩
  rw [← classAt_last_getD hne, h1]

theorem deltaIndex_of_lt_first {classes : List JSNum} (colorscale : List JSVal) {v : JSNum}
    (hlt : v.lt (classAt classes 0) = true) : deltaIndex classes colorscale v = 0 := by
  simp [deltaIndex, hlt]

theorem deltaIndex_of_ge_last {classes : List JSNum} (colorscale : List JSVal) {v top : JSNum}
    (hasc : ascending classes = true) (ht : classes.getLast? = some top)
    (hge : v.ge top = true) :
    deltaIndex classes colorscale v = (colorscale.length : Int) - 1 := by
  obtain ⟨hne, h1, h2⟩ := classAt_of_getLast ht
  have hpos : 0 < classes.length := List.length_pos.mpr hne
  have hge2 : v.ge (classes.getD (classes.length - 1) .nan) = true := by rw [h2]; exact hge
  have hlow : v.lt (classAt classes 0) = false := by
    rw [classAt_zero]
    exact lt_false_of_ascending hasc (Nat.zero_le _) (by omega) hge2
  simp [deltaIndex, h1, hge, hlow]

theorem deltaIndex_of_inBucket {classes : List JSNum} (colorscale : List JSVal) {v : JSNum}
    {i : Nat} (hasc : ascending classes = true) (hin : inBucket classes v i = true) :
    deltaIndex classes colorscale v = (i : Int) := by
  simp [deltaIndex, bucketLoop_of_inBucket hasc 0 hin, ge_last_false_of_inBucket hasc hin,
    lt_first_false_of_inBucket hasc hin]

theorem numericIndex_nil (colorscale : List JSVal) (v : JSNum) :
    numericIndex [] colorscale v = -1 := by
  simp [numericIndex, bucketLoop, classAt, JSNum.ge_nan, JSNum.lt_nan]

theorem numericIndex_of_ge_last {classes : List JSNum} (colorscale : List JSVal) {v top : JSNum}
    (hasc : ascending classes = true) (ht : classes.getLast? = some top)
    (hge : v.ge top = true) :
    numericIndex classes colorscale v = (colorscale.length : Int) - 1 := by
  obtain ⟨hne, h1, h2⟩ := classAt_of_getLast ht
  have hpos : 0 < classes.length := List.length_pos.mpr hne
  have hge2 : v.ge (classes.getD (classes.length - 1) .nan) = true := by rw [h2]; exact hge
  have hlow : v.lt (classAt classes 0) = false := by
    rw [classAt_zero]
    exact lt_false_of_ascending hasc (Nat.zero_le _) (by omega) hge2
  have hloop : bucketLoop classes v (-1) (classes.length - 1) 0 = -1 := by
    apply bucketLoop_eq_init
    intro j _ hj
    rw [inBucket_eq, classAt_natCast_succ,
      lt_false_of_ascending hasc (show j + 1 ≤ classes.length - 1 by omega) (by omega) hge2]
    simp
  simp [numericIndex, hloop, h1, hge, hlow]

theorem numericIndex_of_inBucket {classes : List JSNum} (colorscale : List JSVal) {v : JSNum}
    {i : Nat} (hasc : ascending classes = true) (hin : inBucket classes v i = true) :
    numericIndex classes colorscale v = (i : Int) := by
  have hne : ¬ ((i : Int) = -1) := by omega
  simp [numericIndex, bucketLoop_of_inBucket hasc (-1) hin, hne,
    lt_first_false_of_inBucket hasc hin]

/-! ## Lemmas on `indexOf` -/

theorem indexOfFrom_of_first (v : JSVal) :
    ∀ (labels : List JSVal) (s i : Nat), FirstPosition labels v i →
      indexOfFrom v labels s = ((s + i : Nat) : Int)
  | [], _, i, ⟨⟨x, hx, _⟩, _⟩ => by simp at hx
  | a :: rest, s, 0, ⟨⟨x, hx, hxv⟩, _⟩ => by
    simp only [List.getElem?_cons_zero, Option.some.injEq] at hx
    subst hx
    simp [indexOfFrom, hxv]
  | a :: rest, s, i + 1, ⟨⟨x, hx, hxv⟩, hbefore⟩ => by
    have ha : strictEq a v = false := hbefore 0 a (Nat.succ_pos i) (by simp)
    have hrest : FirstPosition rest v i :=
      ⟨⟨x, by simpa using hx, hxv⟩,
        fun j y hj hy => hbefore (j + 1) y (by omega) (by simpa using hy)⟩
    rw [indexOfFrom, ha]
    simp only [Bool.false_eq_true, if_false]
    rw [indexOfFrom_of_first v rest (s + 1) i hrest]
    congr 1
    omega

theorem indexOfFrom_of_absent (v : JSVal) :
    ∀ (labels : List JSVal) (s : Nat), (∀ y ∈ labels, strictEq y v = false) →
      indexOfFrom v labels s = -1
  | [], _, _ => rfl
  | a :: rest, s, hall => by
    rw [indexOfFrom, hall a (List.mem_cons_self a rest)]
    simp only [Bool.false_eq_true, if_false]
    exact indexOfFrom_of_absent v rest (s + 1)
      (fun y hy => hall y (List.mem_cons_of_mem a hy))

theorem indexOf_of_first {labels : List JSVal} {v : JSVal} {i : Nat}
    (hi : FirstPosition labels v i) : indexOf labels v = (i : Int) := by
  rw [indexOf, indexOfFrom_of_first v labels 0 i hi]
  simp

theorem indexOf_of_absent {labels : List JSVal} {v : JSVal}
    (hall : ∀ y ∈ labels, strictEq y v = false) : indexOf labels v = -1 :=
  indexOfFrom_of_absent v labels 0 hall

/-! ## Absent value -/

/-- C1. Whatever the context (categorical or not, any `colorProp`, `"delta"` and `"none"`
included), a feature whose property `colorProp` is absent or null gets the base style with
`fillColor` set to `"#d3d3d3"` and `fillOpacity` set to `0.3`, every other key being as in the
base style. -/
theorem function0_absent_value (host : Host) (feature : Feature) (h : Hideout)
    (hv : feature.properties.prop h.colorProp = .undefined ∨
      feature.properties.prop h.colorProp = .null) :
    Overridden h.style [("fillColor", .str "#d3d3d3"), ("fillOpacity", .num (.fin (3 / 10)))]
      (function0 host feature h) := by
  rw [function0_of_absent host feature h hv]
  exact overridden_noDataStyle h.style

theorem function0_absent_value_witness :
    Overridden sampleStyle [("fillColor", .str "#d3d3d3"), ("fillOpacity", .num (.fin (3 / 10)))]
      (function0 nanHost bareFeature (numericHideout "none")) :=
  function0_absent_value nanHost bareFeature (numericHideout "none") (Or.inl (by decide))

/-! ## Categorical mode -/

/-- C2, as the code has it. In categorical mode, for a present value whose first position in
`labels` is `i`, with `i < colorscale.length`, the result is the base style overridden with
`fillColor = colorscale[i]`, `fillOpacity = 0.7`, `weight = 2`, `color = "#333"` and
`opacity = 1`. -/
theorem function0_categorical_first_match (host : Host) (feature : Feature) (h : Hideout)
    (labels : List JSVal) (i : Nat) (c : JSVal)
    (hu : feature.properties.prop h.colorProp ≠ .undefined)
    (hn : feature.properties.prop h.colorProp ≠ .null)
    (hcat : h.categorical = .bool true) (hlab : h.labels = some labels)
    (hfirst : FirstPosition labels (feature.properties.prop h.colorProp) i)
    (hc : h.colorscale[i]? = some c) :
    Overridden h.style
      [("fillColor", c), ("fillOpacity", .num (.fin (7 / 10))), ("weight", .num (.fin 2)),
        ("color", .str "#333"), ("opacity", .num (.fin 1))]
      (function0 host feature h) := by
  have hlen : i < h.colorscale.length := by
    by_contra hge
    rw [List.getElem?_eq_none (by omega)] at hc
    exact absurd hc (by simp)
  have hcol : colorAt h.colorscale (i : Int) = c := by
    rw [colorAt_natCast, List.getD_eq_getElem?_getD, hc]
    rfl
  rw [function0_of_categorical host feature h labels hu hn hcat hlab, indexOf_of_first hfirst,
    if_pos ⟨Int.natCast_nonneg i, by exact_mod_cast hlen⟩, hcol]
  exact overridden_withBorder (overridden_filledStyle h.style c)

theorem function0_categorical_first_match_witness :
    Overridden sampleStyle
      [("fillColor", .str "blue"), ("fillOpacity", .num (.fin (7 / 10))),
        ("weight", .num (.fin 2)), ("color", .str "#333"), ("opacity", .num (.fin 1))]
      (function0 nanHost (stringFeature "kind" "b")
        (categoricalHideout "kind" [.str "a", .str "b"] [.str "red", .str "blue"])) :=
  function0_categorical_first_match nanHost (stringFeature "kind" "b")
    (categoricalHideout "kind" [.str "a", .str "b"] [.str "red", .str "blue"])
    [.str "a", .str "b"] 1 (.str "blue") (by decide) (by decide) rfl rfl
    ⟨⟨.str "b", rfl, by decide⟩, fun j y hj hy => by
      have hj0 : j = 0 := by omega
      subst hj0
      simp only [List.getElem?_cons_zero, Option.some.injEq] at hy
      subst hy
      decide⟩
    rfl

/-- C2 fails as stated. With `labels = ["a", "a"]` and `colorscale = ["red", "blue"]`, the
value `"a"` equals `labels[1]` and `1 < colorscale.length`, yet the fill colour is
`colorscale[0] = "red"`, not `colorscale[1] = "blue"`: `indexOf` gives the first position. -/
theorem function0_categorical_duplicate_label :
    ([JSVal.str "a", JSVal.str "a"])[1]? = some (JSVal.str "a") ∧
    strictEq (JSVal.str "a") ((stringFeature "kind" "a").properties.prop "kind") = true ∧
    1 < (categoricalHideout "kind" [.str "a", .str "a"] [.str "red", .str "blue"]).colorscale.length ∧
    (categoricalHideout "kind" [.str "a", .str "a"] [.str "red", .str "blue"]).colorscale[1]?
      = some (JSVal.str "blue") ∧
    (function0 nanHost (stringFeature "kind" "a")
      (categoricalHideout "kind" [.str "a", .str "a"] [.str "red", .str "blue"])).get? "fillColor"
      = some (JSVal.str "red") := by
  decide

/-- C3. In categorical mode, for a present value that does not occur in `labels`, or whose
first position in `labels` is not below `colorscale.length`, the result is the base style
overridden with `fillColor = "#d3d3d3"`, `fillOpacity = 0.3`, `weight = 2`, `color = "#333"`
and `opacity = 1`, whatever `colorProp` and `classes` are. -/
theorem function0_categorical_no_match (host : Host) (feature : Feature) (h : Hideout)
    (labels : List JSVal)
    (hu : feature.properties.prop h.colorProp ≠ .undefined)
    (hn : feature.properties.prop h.colorProp ≠ .null)
    (hcat : h.categorical = .bool true) (hlab : h.labels = some labels)
    (hno : (∀ y ∈ labels, strictEq y (feature.properties.prop h.colorProp) = false) ∨
      ∃ i, FirstPosition labels (feature.properties.prop h.colorProp) i ∧
        h.colorscale.length ≤ i) :
    Overridden h.style
      [("fillColor", .str "#d3d3d3"), ("fillOpacity", .num (.fin (3 / 10))),
        ("weight", .num (.fin 2)), ("color", .str "#333"), ("opacity", .num (.fin 1))]
      (function0 host feature h) := by
  rw [function0_of_categorical host feature h labels hu hn hcat hlab]
  have hcond : ¬ (0 ≤ indexOf labels (feature.properties.prop h.colorProp) ∧
      indexOf labels (feature.properties.prop h.colorProp) < (h.colorscale.length : Int)) := by
    rcases hno with habs | ⟨i, hfirst, hlen⟩
    · rw [indexOf_of_absent habs]
      omega
    · rw [indexOf_of_first hfirst]
      omega
  rw [if_neg hcond]
  exact overridden_withBorder (overridden_noDataStyle h.style)

theorem function0_categorical_no_match_witness :
    Overridden sampleStyle
      [("fillColor", .str "#d3d3d3"), ("fillOpacity", .num (.fin (3 / 10))),
        ("weight", .num (.fin 2)), ("color", .str "#333"), ("opacity", .num (.fin 1))]
      (function0 nanHost (stringFeature "kind" "z")
        (categoricalHideout "kind" [.str "a", .str "b"] [.str "red", .str "blue"])) :=
  function0_categorical_no_match nanHost (stringFeature "kind" "z")
    (categoricalHideout "kind" [.str "a", .str "b"] [.str "red", .str "blue"])
    [.str "a", .str "b"] (by decide) (by decide) rfl rfl (Or.inl (by decide))

/-! ## The sentinel `"none"` -/

/-- The branch of line 80: when `colorProp` is `"none"`, the feature has a property named
`"none"` whose value is neither absent nor null, and the categorical branch is not taken,
the result is the base style unchanged. -/
theorem function0_none_branch (host : Host) (feature : Feature) (h : Hideout)
    (hnone : h.colorProp = "none")
    (hu : feature.properties.prop h.colorProp ≠ .undefined)
    (hn : feature.properties.prop h.colorProp ≠ .null)
    (hnc : h.categorical ≠ .bool true ∨ h.labels = none) :
    function0 host feature h = h.style := by
  rw [function0_of_not_categorical host feature h hu hn hnc, hnone]
  rw [if_neg (by decide), if_pos rfl]

/-- C4, what the code does. With `colorProp = "none"` and a feature that has no property
named `"none"`, the guard of lines 15-21 returns before the test of line 80 is reached: the
result has `fillColor = "#d3d3d3"` and `fillOpacity = 0.3`, which the base style
`{weight: 1, color: "white"}` does not have, so it is not the base style unchanged. -/
theorem function0_none_absent_property :
    bareFeature.properties.prop (numericHideout "none").colorProp = JSVal.undefined ∧
    (function0 nanHost bareFeature (numericHideout "none")).get? "fillColor"
      = some (JSVal.str "#d3d3d3") ∧
    (function0 nanHost bareFeature (numericHideout "none")).get? "fillOpacity"
      = some (JSVal.num (.fin (3 / 10))) ∧
    (numericHideout "none").style.get? "fillColor" = none ∧
    (numericHideout "none").style.get? "fillOpacity" = none ∧
    function0 nanHost bareFeature (numericHideout "none") ≠ (numericHideout "none").style := by
  refine ⟨by decide, by decide, rfl, by decide, by decide, ?_⟩
  intro hsame
  have hfill : (function0 nanHost bareFeature (numericHideout "none")).get? "fillColor"
      = (numericHideout "none").style.get? "fillColor" := by rw [hsame]
  exact absurd hfill (by decide)

/-! ## Delta mode -/

/-- C5. In delta mode, for non-empty `classes` in any order and a value whose number is
strictly below `classes[0]`, the result has `fillColor = colorscale[0]` and
`fillOpacity = 0.7`, also when the value lies inside some interval
`[classes[i], classes[i+1])` or is at or above the last threshold. The other keys are those of
the base style. -/
theorem function0_delta_below_first (host : Host) (feature : Feature) (h : Hideout)
    (c0 : JSNum)
    (hd : h.colorProp = "delta")
    (hu : feature.properties.prop h.colorProp ≠ .undefined)
    (hn : feature.properties.prop h.colorProp ≠ .null)
    (hnc : h.categorical ≠ .bool true ∨ h.labels = none)
    (hc0 : h.classes[0]? = some c0)
    (hlt : (toNumber host (feature.properties.prop h.colorProp)).lt c0 = true) :
    Overridden h.style
      [("fillColor", colorAt h.colorscale 0), ("fillOpacity", .num (.fin (7 / 10)))]
      (function0 host feature h) := by
  have hread : classAt h.classes 0 = c0 := by
    rw [classAt_zero, List.getD_eq_getElem?_getD, hc0]
    rfl
  rw [function0_of_delta host feature h hu hn hnc hd (JSNum.isNaN_false_of_lt hlt),
    deltaIndex_of_lt_first h.colorscale (by rw [hread]; exact hlt)]
  exact overridden_filledStyle h.style _

/-- The value `7` with thresholds `[10, 0, 20, 5]`: it is below `classes[0]`, inside the
interval of index 1 and above the last threshold, and gets `colorscale[0] = "a"`. -/
theorem function0_delta_below_first_witness :
    inBucket (unsortedHideout "delta").classes (.fin 7) 1 = true ∧
    (JSNum.fin 7).ge (.fin 5) = true ∧
    Overridden sampleStyle [("fillColor", .str "a"), ("fillOpacity", .num (.fin (7 / 10)))]
      (function0 nanHost (numberFeature "delta" 7) (unsortedHideout "delta")) :=
  ⟨by decide, by decide,
    function0_delta_below_first nanHost (numberFeature "delta" 7) (unsortedHideout "delta")
      (.fin 10) rfl (by decide) (by decide) (Or.inr rfl) rfl (by decide)⟩

/-- C6. In delta mode, for non-empty ascending `classes`, non-empty `colorscale` and a value
whose number is at or above the last element of `classes`, the result has `fillColor` equal to
the last element of `colorscale` and `fillOpacity = 0.7`. -/
theorem function0_delta_top (host : Host) (feature : Feature) (h : Hideout)
    (top : JSNum) (c : JSVal)
    (hd : h.colorProp = "delta")
    (hu : feature.properties.prop h.colorProp ≠ .undefined)
    (hn : feature.properties.prop h.colorProp ≠ .null)
    (hnc : h.categorical ≠ .bool true ∨ h.labels = none)
    (hasc : ascending h.classes = true)
    (htop : h.classes.getLast? = some top)
    (hcol : h.colorscale.getLast? = some c)
    (hge : (toNumber host (feature.properties.prop h.colorProp)).ge top = true) :
    Overridden h.style [("fillColor", c), ("fillOpacity", .num (.fin (7 / 10)))]
      (function0 host feature h) := by
  rw [function0_of_delta host feature h hu hn hnc hd (JSNum.isNaN_false_of_ge hge),
    deltaIndex_of_ge_last h.colorscale hasc htop hge, (colorAt_last hcol).1]
  exact overridden_filledStyle h.style c

/-- The value `25` with thresholds `[0, 10, 20]` gets the last colour, `"c"`. -/
theorem function0_delta_top_witness :
    Overridden sampleStyle [("fillColor", .str "c"), ("fillOpacity", .num (.fin (7 / 10)))]
      (function0 nanHost (numberFeature "delta" 25) (numericHideout "delta")) :=
  function0_delta_top nanHost (numberFeature "delta" 25) (numericHideout "delta")
    (.fin 20) (.str "c") rfl (by decide) (by decide) (Or.inr rfl) (by decide) rfl rfl
    (by decide)

/-- C7. In delta mode with ascending `classes`, for a value whose number lies in the interval
of index `i` (`classes[i] <= value < classes[i+1]`) with `i < colorscale.length`, the result
is the base style overridden with `fillColor = colorscale[i]` and `fillOpacity = 0.7`; and `i`
is the only index whose interval holds the value. -/
theorem function0_delta_interval (host : Host) (feature : Feature) (h : Hideout)
    (i : Nat) (c : JSVal)
    (hd : h.colorProp = "delta")
    (hu : feature.properties.prop h.colorProp ≠ .undefined)
    (hn : feature.properties.prop h.colorProp ≠ .null)
    (hnc : h.categorical ≠ .bool true ∨ h.labels = none)
    (hasc : ascending h.classes = true)
    (hin : inBucket h.classes (toNumber host (feature.properties.prop h.colorProp)) i = true)
    (hc : h.colorscale[i]? = some c) :
    Overridden h.style [("fillColor", c), ("fillOpacity", .num (.fin (7 / 10)))]
        (function0 host feature h) ∧
      ∀ j, inBucket h.classes (toNumber host (feature.properties.prop h.colorProp)) j = true →
        j = i := by
  have hnum := JSNum.isNaN_false_of_ge (inBucket_reads hin).2.1
  have hcol : colorAt h.colorscale (i : Int) = c := by
    rw [colorAt_natCast, List.getD_eq_getElem?_getD, hc]
    rfl
  refine ⟨?_, fun j hj => inBucket_unique hasc hin hj⟩
  rw [function0_of_delta host feature h hu hn hnc hd hnum,
    deltaIndex_of_inBucket h.colorscale hasc hin, hcol]
  exact overridden_filledStyle h.style c

/-- The example of the specification: `classes = [0, 10, 20]`, `colorscale = ["a", "b", "c"]`
and `value = 15` give `fillColor = "b"`, from the interval of index 1, the only one. -/
theorem function0_delta_interval_witness :
    Overridden sampleStyle [("fillColor", .str "b"), ("fillOpacity", .num (.fin (7 / 10)))]
        (function0 nanHost (numberFeature "delta" 15) (numericHideout "delta")) ∧
      ∀ j, inBucket sampleClasses (.fin 15) j = true → j = 1 :=
  function0_delta_interval nanHost (numberFeature "delta" 15) (numericHideout "delta")
    1 (.str "b") rfl (by decide) (by decide) (Or.inr rfl) (by decide) (by decide) rfl

/-! ## Generic numeric mode -/

/-- C8. In generic numeric mode, for a present value, if `classes` is empty or `colorscale` is
empty the result is the no-data style: the base style with `fillColor = "#d3d3d3"` and
`fillOpacity = 0.3`, its `weight`, `color` and `opacity` being those of the base style. -/
theorem function0_numeric_empty_tables (host : Host) (feature : Feature) (h : Hideout)
    (hd : h.colorProp ≠ "delta") (hnone : h.colorProp ≠ "none")
    (hu : feature.properties.prop h.colorProp ≠ .undefined)
    (hn : feature.properties.prop h.colorProp ≠ .null)
    (hnc : h.categorical ≠ .bool true ∨ h.labels = none)
    (hempty : h.classes = [] ∨ h.colorscale = []) :
    Overridden h.style [("fillColor", .str "#d3d3d3"), ("fillOpacity", .num (.fin (3 / 10)))]
      (function0 host feature h) := by
  have hres : function0 host feature h = noDataStyle h.style := by
    cases hnum : (toNumber host (feature.properties.prop h.colorProp)).isNaN with
    | true =>
      rw [function0_of_not_categorical host feature h hu hn hnc, if_neg hd, if_neg hnone, hnum]
      simp
    | false =>
      rw [function0_of_numeric host feature h hu hn hnc hd hnone hnum]
      apply if_neg
      rcases hempty with he | he
      · rw [he, numericIndex_nil]
        omega
      · rw [he]
        simp only [List.length_nil, Nat.cast_zero]
        omega
  rw [hres]
  exact overridden_noDataStyle h.style

/-- The value `5` with no threshold gets the no-data style. -/
theorem function0_numeric_empty_tables_witness :
    Overridden sampleStyle [("fillColor", .str "#d3d3d3"), ("fillOpacity", .num (.fin (3 / 10)))]
      (function0 nanHost (numberFeature "pop" 5) (noClassHideout "pop")) :=
  function0_numeric_empty_tables nanHost (numberFeature "pop" 5) (noClassHideout "pop")
    (by decide) (by decide) (by decide) (by decide) (Or.inr rfl) (Or.inl rfl)

/-- C9. In generic numeric mode with non-empty ascending `classes` and non-empty `colorscale`,
for a value whose number is at or above the last element of `classes`, the result is the base
style overridden with `fillColor` equal to the last element of `colorscale`,
`fillOpacity = 0.7`, `weight = 2`, `color = "#333"` and `opacity = 1`. -/
theorem function0_numeric_top (host : Host) (feature : Feature) (h : Hideout)
    (top : JSNum) (c : JSVal)
    (hd : h.colorProp ≠ "delta") (hnone : h.colorProp ≠ "none")
    (hu : feature.properties.prop h.colorProp ≠ .undefined)
    (hn : feature.properties.prop h.colorProp ≠ .null)
    (hnc : h.categorical ≠ .bool true ∨ h.labels = none)
    (hasc : ascending h.classes = true)
    (htop : h.classes.getLast? = some top)
    (hcol : h.colorscale.getLast? = some c)
    (hge : (toNumber host (feature.properties.prop h.colorProp)).ge top = true) :
    Overridden h.style
      [("fillColor", c), ("fillOpacity", .num (.fin (7 / 10))), ("weight", .num (.fin 2)),
        ("color", .str "#333"), ("opacity", .num (.fin 1))]
      (function0 host feature h) := by
  obtain ⟨hread, hpos⟩ := colorAt_last hcol
  rw [function0_of_numeric host feature h hu hn hnc hd hnone (JSNum.isNaN_false_of_ge hge),
    numericIndex_of_ge_last h.colorscale hasc htop hge, if_pos (by omega), hread]
  exact overridden_withBorder (overridden_filledStyle h.style c)

/-- The example of the specification: `classes = [0, 10, 20]`, `colorscale = ["a", "b", "c"]`,
`colorProp = "pop"` and `value = 25` give `fillColor = "c"` with the border. -/
theorem function0_numeric_top_witness :
    Overridden sampleStyle
      [("fillColor", .str "c"), ("fillOpacity", .num (.fin (7 / 10))), ("weight", .num (.fin 2)),
        ("color", .str "#333"), ("opacity", .num (.fin 1))]
      (function0 nanHost (numberFeature "pop" 25) (numericHideout "pop")) :=
  function0_numeric_top nanHost (numberFeature "pop" 25) (numericHideout "pop")
    (.fin 20) (.str "c") (by decide) (by decide) (by decide) (by decide) (Or.inr rfl)
    (by decide) rfl rfl (by decide)

/-- C10. In generic numeric mode with ascending `classes`, for a value whose number lies in
the interval of index `i` (`classes[i] <= value < classes[i+1]`): if `i < colorscale.length`
the result is the base style overridden with `fillColor = colorscale[i]`, `fillOpacity = 0.7`,
`weight = 2`, `color = "#333"` and `opacity = 1`; if `i >= colorscale.length` it is the
no-data style (`fillColor = "#d3d3d3"`, `fillOpacity = 0.3`) with the border of the base
style. -/
theorem function0_numeric_interval (host : Host) (feature : Feature) (h : Hideout)
    (i : Nat)
    (hd : h.colorProp ≠ "delta") (hnone : h.colorProp ≠ "none")
    (hu : feature.properties.prop h.colorProp ≠ .undefined)
    (hn : feature.properties.prop h.colorProp ≠ .null)
    (hnc : h.categorical ≠ .bool true ∨ h.labels = none)
    (hasc : ascending h.classes = true)
    (hin : inBucket h.classes (toNumber host (feature.properties.prop h.colorProp)) i = true) :
    (∀ c, h.colorscale[i]? = some c →
      Overridden h.style
        [("fillColor", c), ("fillOpacity", .num (.fin (7 / 10))), ("weight", .num (.fin 2)),
          ("color", .str "#333"), ("opacity", .num (.fin 1))]
        (function0 host feature h)) ∧
    (h.colorscale.length ≤ i →
      Overridden h.style [("fillColor", .str "#d3d3d3"), ("fillOpacity", .num (.fin (3 / 10)))]
        (function0 host feature h)) := by
  have hnum := JSNum.isNaN_false_of_ge (inBucket_reads hin).2.1
  have hres := function0_of_numeric host feature h hu hn hnc hd hnone hnum
  rw [numericIndex_of_inBucket h.colorscale hasc hin] at hres
  constructor
  · intro c hc
    have hlen : i < h.colorscale.length := by
      by_contra hge
      rw [List.getElem?_eq_none (by omega)] at hc
      exact absurd hc (by simp)
    have hcol : colorAt h.colorscale (i : Int) = c := by
      rw [colorAt_natCast, List.getD_eq_getElem?_getD, hc]
      rfl
    rw [hres, if_pos (by omega), hcol]
    exact overridden_withBorder (overridden_filledStyle h.style c)
  · intro hlen
    rw [hres, if_neg (by omega)]
    exact overridden_noDataStyle h.style

/-- The value `15` with thresholds `[0, 10, 20]` lies in the interval of index 1: with colours
`["a", "b", "c"]` it gets `"b"` and the border, with the single colour `["a"]` it gets the
no-data style. -/
theorem function0_numeric_interval_witness :
    Overridden sampleStyle
        [("fillColor", .str "b"), ("fillOpacity", .num (.fin (7 / 10))),
          ("weight", .num (.fin 2)), ("color", .str "#333"), ("opacity", .num (.fin 1))]
        (function0 nanHost (numberFeature "pop" 15) (numericHideout "pop")) ∧
      Overridden sampleStyle
        [("fillColor", .str "#d3d3d3"), ("fillOpacity", .num (.fin (3 / 10)))]
        (function0 nanHost (numberFeature "pop" 15) (oneColorHideout "pop")) :=
  ⟨(function0_numeric_interval nanHost (numberFeature "pop" 15) (numericHideout "pop") 1
      (by decide) (by decide) (by decide) (by decide) (Or.inr rfl) (by decide) (by decide)).1
      (.str "b") rfl,
    (function0_numeric_interval nanHost (numberFeature "pop" 15) (oneColorHideout "pop") 1
      (by decide) (by decide) (by decide) (by decide) (Or.inr rfl) (by decide) (by decide)).2
      (by decide)⟩

/-! ## The shape of the result -/

/-- Every result is the base style, or one of the four object literals built on it. -/
theorem function0_shape (host : Host) (feature : Feature) (h : Hideout) :
    function0 host feature h = h.style ∨
    function0 host feature h = noDataStyle h.style ∨
    function0 host feature h = withBorder (noDataStyle h.style) ∨
    (∃ c, function0 host feature h = filledStyle h.style c) ∨
    (∃ c, function0 host feature h = withBorder (filledStyle h.style c)) := by
  by_cases hv : feature.properties.prop h.colorProp = .undefined ∨
      feature.properties.prop h.colorProp = .null
  · exact Or.inr (Or.inl (function0_of_absent host feature h hv))
  · have hu : feature.properties.prop h.colorProp ≠ .undefined := fun e => hv (Or.inl e)
    have hn : feature.properties.prop h.colorProp ≠ .null := fun e => hv (Or.inr e)
    by_cases hcat : h.categorical = .bool true
    · cases hl : h.labels with
      | none =>
        rw [function0_of_not_categorical host feature h hu hn (Or.inr hl)]
        split_ifs
        · exact Or.inr (Or.inl rfl)
        · exact Or.inr (Or.inr (Or.inr (Or.inl ⟨_, rfl⟩)))
        · exact Or.inl rfl
        · exact Or.inr (Or.inl rfl)
        · exact Or.inr (Or.inr (Or.inr (Or.inr ⟨_, rfl⟩)))
        · exact Or.inr (Or.inl rfl)
      | some labels =>
        rw [function0_of_categorical host feature h labels hu hn hcat hl]
        split_ifs
        · exact Or.inr (Or.inr (Or.inr (Or.inr ⟨_, rfl⟩)))
        · exact Or.inr (Or.inr (Or.inl rfl))
    · rw [function0_of_not_categorical host feature h hu hn (Or.inl hcat)]
      split_ifs
      · exact Or.inr (Or.inl rfl)
      · exact Or.inr (Or.inr (Or.inr (Or.inl ⟨_, rfl⟩)))
      · exact Or.inl rfl
      · exact Or.inr (Or.inl rfl)
      · exact Or.inr (Or.inr (Or.inr (Or.inr ⟨_, rfl⟩)))
      · exact Or.inr (Or.inl rfl)

/-- A style that overrides the two fill keys leaves a key other than these two as it is. -/
theorem get?_of_overridden_fill {style o : Obj} {c op : JSVal} {key : String}
    (ho : Overridden style [("fillColor", c), ("fillOpacity", op)] o)
    (h1 : "fillColor" ≠ key) (h2 : "fillOpacity" ≠ key) : o.get? key = style.get? key := by
  apply ho.2
  intro kv hkv
  simp only [List.mem_cons, List.mem_singleton, List.not_mem_nil, or_false] at hkv
  rcases hkv with rfl | rfl
  · exact h1
  · exact h2

/-- A style that overrides the five keys leaves a key other than these five as it is. -/
theorem get?_of_overridden_border {style o : Obj} {c op w col bo : JSVal} {key : String}
    (ho : Overridden style
      [("fillColor", c), ("fillOpacity", op), ("weight", w), ("color", col), ("opacity", bo)] o)
    (hkey : key ∉ ["fillColor", "fillOpacity", "weight", "color", "opacity"]) :
    o.get? key = style.get? key := by
  apply ho.2
  intro kv hkv heq
  apply hkey
  simp only [List.mem_cons, List.mem_singleton, List.not_mem_nil, or_false] at hkv ⊢
  rcases hkv with rfl | rfl | rfl | rfl | rfl
  · exact Or.inl heq.symm
  · exact Or.inr (Or.inl heq.symm)
  · exact Or.inr (Or.inr (Or.inl heq.symm))
  · exact Or.inr (Or.inr (Or.inr (Or.inl heq.symm)))
  · exact Or.inr (Or.inr (Or.inr (Or.inr heq.symm)))

/-! ## The bucket index on well-formed tables -/

theorem JSNum.ge_of_lt_false {v a : JSNum} (hv : v.isNaN = false) (ha : a.isNaN = false)
    (h : v.lt a = false) : v.ge a = true := by
  cases v <;> cases a <;> simp_all [JSNum.lt, JSNum.ge, JSNum.isNaN]

theorem JSNum.isNaN_false_of_le {a b : JSNum} (h : a.le b = true) :
    a.isNaN = false ∧ b.isNaN = false := by
  cases a <;> cases b <;> simp_all [JSNum.le, JSNum.ge, JSNum.isNaN]

theorem inBucket_cons_succ (a : JSNum) (classes : List JSNum) (v : JSNum) (i : Nat) :
    inBucket (a :: classes) v (i + 1) = inBucket classes v i := by
  simp [inBucket]

/-- Ascending thresholds, when there are two or more, are numbers. -/
theorem ascending_not_nan : ∀ (a b : JSNum) (rest : List JSNum),
    ascending (a :: b :: rest) = true → ∀ c ∈ a :: b :: rest, c.isNaN = false
  | a, b, [], hasc, c, hc => by
    simp only [ascending, Bool.and_true] at hasc
    have hab := JSNum.isNaN_false_of_le hasc
    simp only [List.mem_cons, List.mem_singleton, List.not_mem_nil, or_false] at hc
    rcases hc with rfl | rfl
    · exact hab.1
    · exact hab.2
  | a, b, d :: r, hasc, c, hc => by
    rw [ascending, Bool.and_eq_true] at hasc
    rcases List.mem_cons.mp hc with rfl | hc2
    · exact (JSNum.isNaN_false_of_le hasc.1).1
    · exact ascending_not_nan b d r hasc.2 c hc2

/-- A number at or above the first threshold and not at or above the last one lies in an
interval. -/
theorem exists_inBucket {v : JSNum} (hv : v.isNaN = false) :
    ∀ (a : JSNum) (rest : List JSNum), (∀ c ∈ a :: rest, c.isNaN = false) →
      v.ge a = true → v.ge ((a :: rest).getLast?.getD .nan) = false →
      ∃ i, inBucket (a :: rest) v i = true
  | a, [], _, hge, hlast => by
    simp only [List.getLast?_singleton, Option.getD_some] at hlast
    rw [hge] at hlast
    exact absurd hlast (by decide)
  | a, b :: rest, hnum, hge, hlast => by
    cases hlt : v.lt b with
    | true =>
      refine ⟨0, ?_⟩
      simp only [inBucket, List.getElem?_cons_zero, List.getElem?_cons_succ, JSNum.le,
        hge, hlt, Bool.and_self]
    | false =>
      have hb : b.isNaN = false := hnum b (by simp)
      have hgeb := JSNum.ge_of_lt_false hv hb hlt
      obtain ⟨i, hi⟩ := exists_inBucket hv b rest
        (fun c hc => hnum c (List.mem_cons_of_mem a hc)) hgeb
        (by rw [List.getLast?_cons_cons] at hlast; exact hlast)
      exact ⟨i + 1, by rw [inBucket_cons_succ]; exact hi⟩

theorem numericIndex_of_lt_first {classes : List JSNum} (colorscale : List JSVal) {v : JSNum}
    (hlt : v.lt (classAt classes 0) = true) : numericIndex classes colorscale v = 0 := by
  simp [numericIndex, hlt]

/-- On non-empty ascending thresholds that are numbers, a number is below the first
threshold, inside an interval, or at or above the last threshold, and in each case the two
numeric branches compute the same index. -/
theorem index_cases (classes : List JSNum) (colorscale : List JSVal) (v : JSNum)
    (hne : classes ≠ []) (hasc : ascending classes = true)
    (hnum : ∀ c ∈ classes, c.isNaN = false) (hv : v.isNaN = false) :
    (v.lt (classes.getD 0 .nan) = true ∧ deltaIndex classes colorscale v = 0 ∧
        numericIndex classes colorscale v = 0) ∨
    (∃ i, inBucket classes v i = true ∧ deltaIndex classes colorscale v = (i : Int) ∧
        numericIndex classes colorscale v = (i : Int)) ∨
    (v.ge (classes.getD (classes.length - 1) .nan) = true ∧
        deltaIndex classes colorscale v = (colorscale.length : Int) - 1 ∧
        numericIndex classes colorscale v = (colorscale.length : Int) - 1) := by
  cases hlt : v.lt (classes.getD 0 .nan) with
  | true =>
    have hlt2 : v.lt (classAt classes 0) = true := by rw [classAt_zero]; exact hlt
    exact Or.inl ⟨rfl, deltaIndex_of_lt_first colorscale hlt2,
      numericIndex_of_lt_first colorscale hlt2⟩
  | false =>
    obtain ⟨a, rest, hcl⟩ := List.exists_cons_of_ne_nil hne
    have htop : classes.getLast? = some (classes.getLast hne) := List.getLast?_eq_getLast _ hne
    obtain ⟨_, _, hread⟩ := classAt_of_getLast htop
    cases hge : v.ge (classes.getLast hne) with
    | true =>
      refine Or.inr (Or.inr ⟨by rw [hread]; exact hge, ?_, ?_⟩)
      · exact deltaIndex_of_ge_last colorscale hasc htop hge
      · exact numericIndex_of_ge_last colorscale hasc htop hge
    | false =>
      have ha : v.ge a = true := by
        apply JSNum.ge_of_lt_false hv (hnum a (by simp [hcl]))
        simpa [hcl] using hlt
      have hlast : v.ge ((a :: rest).getLast?.getD .nan) = false := by
        rw [← hcl, htop]
        exact hge
      obtain ⟨i, hi⟩ := exists_inBucket hv a rest (by rw [← hcl]; exact hnum) ha hlast
      rw [← hcl] at hi
      exact Or.inr (Or.inl ⟨i, hi, deltaIndex_of_inBucket colorscale hasc hi,
        numericIndex_of_inBucket colorscale hasc hi⟩)

/-- On well-formed tables the index of both numeric branches is a position of `colorscale`. -/
theorem index_in_range (classes : List JSNum) (colorscale : List JSVal) (v : JSNum)
    (hne : classes ≠ []) (hasc : ascending classes = true)
    (hnum : ∀ c ∈ classes, c.isNaN = false) (hv : v.isNaN = false)
    (hcne : colorscale ≠ []) (hlen : classes.length - 1 ≤ colorscale.length) :
    ∃ k : Nat, k < colorscale.length ∧ deltaIndex classes colorscale v = (k : Int) ∧
      numericIndex classes colorscale v = (k : Int) := by
  have hpos : 0 < colorscale.length := List.length_pos.mpr hcne
  rcases index_cases classes colorscale v hne hasc hnum hv with
    ⟨_, hd, hn⟩ | ⟨i, hi, hd, hn⟩ | ⟨_, hd, hn⟩
  · exact ⟨0, hpos, by simpa using hd, by simpa using hn⟩
  · have := inBucket_lt_length hi
    exact ⟨i, by omega, hd, hn⟩
  · exact ⟨colorscale.length - 1, by omega, by rw [hd]; omega, by rw [hn]; omega⟩

/-- A read of `colorscale` at a position in range gives an element of `colorscale`. -/
theorem colorAt_in_range (colorscale : List JSVal) {idx : Int} (h0 : 0 ≤ idx)
    (hlt : idx < (colorscale.length : Int)) :
    ∃ (k : Nat) (c : JSVal), colorscale[k]? = some c ∧ colorAt colorscale idx = c := by
  have hk : idx.toNat < colorscale.length := by omega
  refine ⟨idx.toNat, colorscale[idx.toNat], List.getElem?_eq_getElem hk, ?_⟩
  simp [colorAt, h0, List.getD_eq_getElem?_getD, List.getElem?_eq_getElem hk]

theorem fill_of_overridden_fill {style o : Obj} {c op : JSVal}
    (ho : Overridden style [("fillColor", c), ("fillOpacity", op)] o) :
    o.get? "fillColor" = some c ∧ o.get? "fillOpacity" = some op :=
  ⟨ho.1 ("fillColor", c) (by simp), ho.1 ("fillOpacity", op) (by simp)⟩

theorem fill_of_overridden_border {style o : Obj} {c op w col bo : JSVal}
    (ho : Overridden style
      [("fillColor", c), ("fillOpacity", op), ("weight", w), ("color", col), ("opacity", bo)] o) :
    o.get? "fillColor" = some c ∧ o.get? "fillOpacity" = some op :=
  ⟨ho.1 ("fillColor", c) (by simp), ho.1 ("fillOpacity", op) (by simp)⟩

/-- The delta branch on a value whose number is `v`. -/
theorem function0_delta_value (host : Host) (feature : Feature) (h : Hideout) (v : JSNum)
    (hu : feature.properties.prop h.colorProp ≠ .undefined)
    (hn : feature.properties.prop h.colorProp ≠ .null)
    (hnc : h.categorical ≠ .bool true ∨ h.labels = none)
    (hd : h.colorProp = "delta")
    (hval : toNumber host (feature.properties.prop h.colorProp) = v)
    (hv : v.isNaN = false) :
    function0 host feature h
      = filledStyle h.style (colorAt h.colorscale (deltaIndex h.classes h.colorscale v)) := by
  subst hval
  exact function0_of_delta host feature h hu hn hnc hd hv

/-- The generic numeric branch on a value whose number is `v`. -/
theorem function0_numeric_value (host : Host) (feature : Feature) (h : Hideout) (v : JSNum)
    (hu : feature.properties.prop h.colorProp ≠ .undefined)
    (hn : feature.properties.prop h.colorProp ≠ .null)
    (hnc : h.categorical ≠ .bool true ∨ h.labels = none)
    (hd : h.colorProp ≠ "delta") (hnone : h.colorProp ≠ "none")
    (hval : toNumber host (feature.properties.prop h.colorProp) = v)
    (hv : v.isNaN = false) :
    function0 host feature h
      = if 0 ≤ numericIndex h.classes h.colorscale v ∧
            numericIndex h.classes h.colorscale v < (h.colorscale.length : Int) then
          withBorder (filledStyle h.style
            (colorAt h.colorscale (numericIndex h.classes h.colorscale v)))
        else noDataStyle h.style := by
  subst hval
  exact function0_of_numeric host feature h hu hn hnc hd hnone hv

/-- The two indices do not decrease when the number grows, on thresholds that are numbers. -/
theorem index_monotone_of_numbers (classes : List JSNum) (colorscale : List JSVal)
    (v w : JSNum) (hne : classes ≠ []) (hasc : ascending classes = true)
    (hnum : ∀ c ∈ classes, c.isNaN = false)
    (hcne : colorscale ≠ []) (hlen : classes.length - 1 ≤ colorscale.length)
    (hvw : v.le w = true) :
    deltaIndex classes colorscale v ≤ deltaIndex classes colorscale w ∧
      numericIndex classes colorscale v ≤ numericIndex classes colorscale w := by
  obtain ⟨hv, hw⟩ := JSNum.isNaN_false_of_le hvw
  have hpos : 0 < colorscale.length := List.length_pos.mpr hcne
  have hcpos : 0 < classes.length := List.length_pos.mpr hne
  rcases index_cases classes colorscale v hne hasc hnum hv with
    ⟨_, hdv, hnv⟩ | ⟨i, hi, hdv, hnv⟩ | ⟨hvtop, hdv, hnv⟩
  · rcases index_cases classes colorscale w hne hasc hnum hw with
      ⟨_, hdw, hnw⟩ | ⟨j, _, hdw, hnw⟩ | ⟨_, hdw, hnw⟩
    · rw [hdv, hnv, hdw, hnw]
      exact ⟨le_refl _, le_refl _⟩
    · rw [hdv, hnv, hdw, hnw]
      exact ⟨by omega, by omega⟩
    · rw [hdv, hnv, hdw, hnw]
      exact ⟨by omega, by omega⟩
  · obtain ⟨hilen, hige, _⟩ := inBucket_reads hi
    have hwi : w.ge (classes.getD i .nan) = true := JSNum.le_trans_js hige hvw
    rcases index_cases classes colorscale w hne hasc hnum hw with
      ⟨hwlow, _, _⟩ | ⟨j, hj, hdw, hnw⟩ | ⟨_, hdw, hnw⟩
    · rw [lt_false_of_ascending hasc (Nat.zero_le i) (by omega) hwi] at hwlow
      exact absurd hwlow (by decide)
    · have hij : i ≤ j := by
        by_contra hlt
        obtain ⟨_, _, hjlt⟩ := inBucket_reads hj
        rw [lt_false_of_ascending hasc (show j + 1 ≤ i by omega) (by omega) hwi] at hjlt
        exact absurd hjlt (by decide)
      rw [hdv, hnv, hdw, hnw]
      exact ⟨by omega, by omega⟩
    · rw [hdv, hnv, hdw, hnw]
      exact ⟨by omega, by omega⟩
  · have hwtop : w.ge (classes.getD (classes.length - 1) .nan) = true :=
      JSNum.le_trans_js hvtop hvw
    rcases index_cases classes colorscale w hne hasc hnum hw with
      ⟨hwlow, _, _⟩ | ⟨j, hj, _, _⟩ | ⟨_, hdw, hnw⟩
    · rw [lt_false_of_ascending hasc (Nat.zero_le _) (by omega) hwtop] at hwlow
      exact absurd hwlow (by decide)
    · obtain ⟨hjlen, _, hjlt⟩ := inBucket_reads hj
      rw [ge_false_of_ascending hasc (show j + 1 ≤ classes.length - 1 by omega) (by omega)
        hjlt] at hwtop
      exact absurd hwtop (by decide)
    · rw [hdv, hnv, hdw, hnw]
      exact ⟨le_refl _, le_refl _⟩

/-! ## Values that cannot be classified -/

/-- C11, what the code does. In delta mode the read `colorscale[colorIndex]` is not guarded.
With thresholds `[0, 10, 20, 30]`, two colours and the value `25`, the index is 2 and the
result has `fillColor = undefined` and `fillOpacity = 0.7`, where the generic numeric branch
gives the no-data colour on the same tables. With an empty `colorscale` and the value `15` the
result has `fillColor = undefined` as well, and with no threshold the value gets
`colorscale[0]`, not the no-data colour. -/
theorem function0_delta_unguarded_read :
    ((function0 nanHost (numberFeature "delta" 25) (shortScaleHideout "delta")).get? "fillColor"
        = some JSVal.undefined ∧
      (function0 nanHost (numberFeature "delta" 25) (shortScaleHideout "delta")).get? "fillOpacity"
        = some (JSVal.num (.fin (7 / 10))) ∧
      (function0 nanHost (numberFeature "pop" 25) (shortScaleHideout "pop")).get? "fillColor"
        = some (JSVal.str "#d3d3d3")) ∧
    ((function0 nanHost (numberFeature "delta" 15) (noColorHideout "delta")).get? "fillColor"
        = some JSVal.undefined ∧
      (function0 nanHost (numberFeature "pop" 15) (noColorHideout "pop")).get? "fillColor"
        = some (JSVal.str "#d3d3d3")) ∧
    (function0 nanHost (numberFeature "delta" 15) (noClassHideout "delta")).get? "fillColor"
      = some (JSVal.str "a") :=
  ⟨⟨by decide, rfl, by decide⟩, ⟨by decide, by decide⟩, by decide⟩

/-- C12. In both numeric modes (the categorical branch is not taken and `colorProp` is not
`"none"`), for a present value whose conversion to a number gives `NaN`, the result is the
base style with `fillColor = "#d3d3d3"` and `fillOpacity = 0.3`, its `weight`, `color` and
`opacity` being those of the base style, whatever `classes` and `colorscale` are. -/
theorem function0_not_a_number (host : Host) (feature : Feature) (h : Hideout)
    (hnone : h.colorProp ≠ "none")
    (hu : feature.properties.prop h.colorProp ≠ .undefined)
    (hn : feature.properties.prop h.colorProp ≠ .null)
    (hnc : h.categorical ≠ .bool true ∨ h.labels = none)
    (hnan : (toNumber host (feature.properties.prop h.colorProp)).isNaN = true) :
    Overridden h.style [("fillColor", .str "#d3d3d3"), ("fillOpacity", .num (.fin (3 / 10)))]
      (function0 host feature h) := by
  have hres : function0 host feature h = noDataStyle h.style := by
    rw [function0_of_not_categorical host feature h hu hn hnc, hnan]
    simp [hnone]
  rw [hres]
  exact overridden_noDataStyle h.style

/-- The string `"n/a"`, which the host converts to `NaN`, in delta mode and in generic numeric
mode. -/
theorem function0_not_a_number_witness :
    Overridden sampleStyle [("fillColor", .str "#d3d3d3"), ("fillOpacity", .num (.fin (3 / 10)))]
        (function0 nanHost (stringFeature "delta" "n/a") (numericHideout "delta")) ∧
      Overridden sampleStyle [("fillColor", .str "#d3d3d3"), ("fillOpacity", .num (.fin (3 / 10)))]
        (function0 nanHost (stringFeature "pop" "n/a") (noColorHideout "pop")) :=
  ⟨function0_not_a_number nanHost (stringFeature "delta" "n/a") (numericHideout "delta")
      (by decide) (by decide) (by decide) (Or.inr rfl) rfl,
    function0_not_a_number nanHost (stringFeature "pop" "n/a") (noColorHideout "pop")
      (by decide) (by decide) (by decide) (Or.inr rfl) rfl⟩

/-! ## Keys of the result -/

/-- C13. For every feature and context, the result agrees with the base style on every key
other than `fillColor`, `fillOpacity`, `weight`, `color` and `opacity`: such a key is present
in the result exactly when it is present in the base style, with the same value. -/
theorem function0_other_keys (host : Host) (feature : Feature) (h : Hideout) (key : String)
    (hkey : key ∉ ["fillColor", "fillOpacity", "weight", "color", "opacity"]) :
    (function0 host feature h).get? key = h.style.get? key := by
  have h1 : "fillColor" ≠ key := fun e => hkey (by simp [← e])
  have h2 : "fillOpacity" ≠ key := fun e => hkey (by simp [← e])
  rcases function0_shape host feature h with hs | hs | hs | ⟨c, hs⟩ | ⟨c, hs⟩
  · rw [hs]
  · rw [hs]
    exact get?_of_overridden_fill (overridden_noDataStyle h.style) h1 h2
  · rw [hs]
    exact get?_of_overridden_border
      (overridden_withBorder (overridden_noDataStyle h.style)) hkey
  · rw [hs]
    exact get?_of_overridden_fill (overridden_filledStyle h.style c) h1 h2
  · rw [hs]
    exact get?_of_overridden_border
      (overridden_withBorder (overridden_filledStyle h.style c)) hkey

/-- The key `dashArray` of the base style is kept by a coloured result, and the key `name`,
which the base style lacks, is not added. -/
theorem function0_other_keys_witness :
    (function0 nanHost (numberFeature "pop" 15) (dashedHideout "pop")).get? "dashArray"
        = some (JSVal.str "4") ∧
      (function0 nanHost (numberFeature "pop" 15) (dashedHideout "pop")).get? "name" = none :=
  ⟨function0_other_keys nanHost (numberFeature "pop" 15) (dashedHideout "pop") "dashArray"
      (by decide),
    function0_other_keys nanHost (numberFeature "pop" 15) (dashedHideout "pop") "name"
      (by decide)⟩

/-- C14. In delta mode, for every present value, numeric or not, the `weight`, `color` and
`opacity` of the result are those of the base style, absent when the base style lacks them:
the delta branch applies no border override. -/
theorem function0_delta_border_untouched (host : Host) (feature : Feature) (h : Hideout)
    (hd : h.colorProp = "delta")
    (hu : feature.properties.prop h.colorProp ≠ .undefined)
    (hn : feature.properties.prop h.colorProp ≠ .null)
    (hnc : h.categorical ≠ .bool true ∨ h.labels = none) :
    (function0 host feature h).get? "weight" = h.style.get? "weight" ∧
    (function0 host feature h).get? "color" = h.style.get? "color" ∧
    (function0 host feature h).get? "opacity" = h.style.get? "opacity" := by
  have hkeep : ∀ key, "fillColor" ≠ key → "fillOpacity" ≠ key →
      (function0 host feature h).get? key = h.style.get? key := by
    intro key h1 h2
    rw [function0_of_not_categorical host feature h hu hn hnc, if_pos hd]
    split_ifs
    · exact get?_of_overridden_fill (overridden_noDataStyle h.style) h1 h2
    · exact get?_of_overridden_fill (overridden_filledStyle h.style _) h1 h2
  exact ⟨hkeep "weight" (by decide) (by decide), hkeep "color" (by decide) (by decide),
    hkeep "opacity" (by decide) (by decide)⟩

/-- The value `15` in delta mode keeps `weight: 1` and `color: "white"` of the base style and
gets no `opacity`, where the generic numeric branch sets `color` to `"#333"`. -/
theorem function0_delta_border_untouched_witness :
    ((function0 nanHost (numberFeature "delta" 15) (numericHideout "delta")).get? "weight"
        = sampleStyle.get? "weight" ∧
      (function0 nanHost (numberFeature "delta" 15) (numericHideout "delta")).get? "color"
        = sampleStyle.get? "color" ∧
      (function0 nanHost (numberFeature "delta" 15) (numericHideout "delta")).get? "opacity"
        = sampleStyle.get? "opacity") ∧
    sampleStyle.get? "color" = some (JSVal.str "white") ∧
    sampleStyle.get? "opacity" = none ∧
    (function0 nanHost (numberFeature "pop" 15) (numericHideout "pop")).get? "color"
      = some (JSVal.str "#333") :=
  ⟨function0_delta_border_untouched nanHost (numberFeature "delta" 15) (numericHideout "delta")
      rfl (by decide) (by decide) (Or.inr rfl),
    by decide, by decide, by decide⟩

/-! ## The gate of the categorical branch -/

/-- C15, as the code has it. The categorical branch is taken when `categorical` is true and
`labels` is a sequence, the empty one included: for a present value, with `categorical` true
and `labels = []` the result is the categorical no-match style (the base style overridden
with `fillColor = "#d3d3d3"`, `fillOpacity = 0.3`, `weight = 2`, `color = "#333"` and
`opacity = 1`); with `categorical` true and `labels` not a sequence the result is the one
obtained with `categorical` false. -/
theorem function0_categorical_gate (host : Host) (feature : Feature) (h : Hideout)
    (hu : feature.properties.prop h.colorProp ≠ .undefined)
    (hn : feature.properties.prop h.colorProp ≠ .null)
    (hcat : h.categorical = .bool true) :
    (h.labels = some [] →
      Overridden h.style
        [("fillColor", .str "#d3d3d3"), ("fillOpacity", .num (.fin (3 / 10))),
          ("weight", .num (.fin 2)), ("color", .str "#333"), ("opacity", .num (.fin 1))]
        (function0 host feature h)) ∧
    (h.labels = none →
      function0 host feature h = function0 host feature (withCategorical h (.bool false))) := by
  constructor
  · intro hl
    rw [function0_of_categorical host feature h [] hu hn hcat hl, if_neg (by simp [indexOf, indexOfFrom])]
    exact overridden_withBorder (overridden_noDataStyle h.style)
  · intro hl
    rw [function0_of_not_categorical host feature h hu hn (Or.inr hl),
      function0_of_not_categorical host feature (withCategorical h (.bool false)) hu hn
        (Or.inl (by simp [withCategorical]))]
    rfl

/-- The value `15` with `categorical` true: with `labels = []` it gets the no-match style,
and with `labels` not a sequence it gets what it gets with `categorical` false. -/
theorem function0_categorical_gate_witness :
    Overridden sampleStyle
        [("fillColor", .str "#d3d3d3"), ("fillOpacity", .num (.fin (3 / 10))),
          ("weight", .num (.fin 2)), ("color", .str "#333"), ("opacity", .num (.fin 1))]
        (function0 nanHost (numberFeature "pop" 15) (emptyLabelsHideout (.bool true))) ∧
      function0 nanHost (numberFeature "pop" 15) (withCategorical (numericHideout "pop") (.bool true))
        = function0 nanHost (numberFeature "pop" 15)
            (withCategorical (withCategorical (numericHideout "pop") (.bool true)) (.bool false)) :=
  ⟨(function0_categorical_gate nanHost (numberFeature "pop" 15) (emptyLabelsHideout (.bool true))
      (by decide) (by decide) rfl).1 rfl,
    (function0_categorical_gate nanHost (numberFeature "pop" 15)
      (withCategorical (numericHideout "pop") (.bool true)) (by decide) (by decide) rfl).2 rfl⟩

/-- C15 fails as stated. With `labels = []` and the value `15` over thresholds `[0, 10, 20]`,
`categorical` true gives the no-data colour and the border colour `"#333"`, while
`categorical` false gives the colour `"b"` of the interval of index 1. -/
theorem function0_empty_labels_differs :
    (function0 nanHost (numberFeature "pop" 15) (emptyLabelsHideout (.bool true))).get? "fillColor"
      = some (JSVal.str "#d3d3d3") ∧
    (function0 nanHost (numberFeature "pop" 15) (emptyLabelsHideout (.bool false))).get? "fillColor"
      = some (JSVal.str "b") := by
  decide

/-! ## The two numeric branches compared -/

/-- C16. On well-formed tables (`classes` non-empty, ascending and made of numbers,
`colorscale` non-empty with `colorscale.length >= classes.length - 1`), for values whose
number is the same `v`, the style of the delta branch and the style of the generic numeric
branch, on the same base style, `classes` and `colorscale`, have the same `fillColor`, an
element of `colorscale`, and the same `fillOpacity`, `0.7`, and differ at most in `weight`,
`color` and `opacity`. -/
theorem function0_delta_numeric_same_fill (host : Host) (featureD featureN : Feature)
    (h : Hideout) (p : String) (v : JSNum)
    (hd : h.colorProp = "delta") (hp : p ≠ "delta") (hpn : p ≠ "none")
    (huD : featureD.properties.prop h.colorProp ≠ .undefined)
    (hnD : featureD.properties.prop h.colorProp ≠ .null)
    (huN : featureN.properties.prop p ≠ .undefined)
    (hnN : featureN.properties.prop p ≠ .null)
    (hnc : h.categorical ≠ .bool true ∨ h.labels = none)
    (hvD : toNumber host (featureD.properties.prop h.colorProp) = v)
    (hvN : toNumber host (featureN.properties.prop p) = v)
    (hv : v.isNaN = false)
    (hne : h.classes ≠ []) (hasc : ascending h.classes = true)
    (hnum : ∀ c ∈ h.classes, c.isNaN = false)
    (hcne : h.colorscale ≠ []) (hlen : h.classes.length - 1 ≤ h.colorscale.length) :
    ∃ (k : Nat) (c : JSVal), h.colorscale[k]? = some c ∧
      (function0 host featureD h).get? "fillColor" = some c ∧
      (function0 host featureN (withColorProp h p)).get? "fillColor" = some c ∧
      (function0 host featureD h).get? "fillOpacity" = some (.num (.fin (7 / 10))) ∧
      (function0 host featureN (withColorProp h p)).get? "fillOpacity"
        = some (.num (.fin (7 / 10))) ∧
      ∀ key, key ∉ ["weight", "color", "opacity"] →
        (function0 host featureD h).get? key
          = (function0 host featureN (withColorProp h p)).get? key := by
  obtain ⟨k, hk, hdI, hnI⟩ :=
    index_in_range h.classes h.colorscale v hne hasc hnum hv hcne hlen
  have hcol : colorAt h.colorscale (k : Int) = h.colorscale[k] := by
    rw [colorAt_natCast, List.getD_eq_getElem?_getD, List.getElem?_eq_getElem hk]
    rfl
  have hresD : function0 host featureD h = filledStyle h.style h.colorscale[k] := by
    rw [function0_delta_value host featureD h v huD hnD hnc hd hvD hv, hdI, hcol]
  have hresN : function0 host featureN (withColorProp h p)
      = withBorder (filledStyle h.style h.colorscale[k]) := by
    have hres : function0 host featureN (withColorProp h p)
        = if 0 ≤ numericIndex h.classes h.colorscale v ∧
              numericIndex h.classes h.colorscale v < (h.colorscale.length : Int) then
            withBorder (filledStyle h.style
              (colorAt h.colorscale (numericIndex h.classes h.colorscale v)))
          else noDataStyle h.style :=
      function0_numeric_value host featureN (withColorProp h p) v huN hnN hnc hp hpn hvN hv
    rw [hres, hnI, if_pos (by omega), hcol]
  have hoD := overridden_filledStyle h.style h.colorscale[k]
  have hoN := overridden_withBorder hoD
  refine ⟨k, h.colorscale[k], List.getElem?_eq_getElem hk, ?_, ?_, ?_, ?_, ?_⟩
  · rw [hresD]
    exact (fill_of_overridden_fill hoD).1
  · rw [hresN]
    exact (fill_of_overridden_border hoN).1
  · rw [hresD]
    exact (fill_of_overridden_fill hoD).2
  · rw [hresN]
    exact (fill_of_overridden_border hoN).2
  · intro key hkey
    rw [hresD, hresN]
    by_cases h1 : "fillColor" = key
    · subst h1
      rw [(fill_of_overridden_fill hoD).1, (fill_of_overridden_border hoN).1]
    · by_cases h2 : "fillOpacity" = key
      · subst h2
        rw [(fill_of_overridden_fill hoD).2, (fill_of_overridden_border hoN).2]
      · rw [get?_of_overridden_fill hoD h1 h2, get?_of_overridden_border hoN]
        intro hmem
        simp only [List.mem_cons, List.mem_singleton, List.not_mem_nil, or_false] at hmem hkey
        rcases hmem with e | e | e | e | e
        · exact h1 e.symm
        · exact h2 e.symm
        · exact hkey (Or.inl e)
        · exact hkey (Or.inr (Or.inl e))
        · exact hkey (Or.inr (Or.inr e))

/-- The value `15` read as `delta` and read as `pop`, on thresholds `[0, 10, 20]` and colours
`["a", "b", "c"]`. -/
theorem function0_delta_numeric_same_fill_witness :
    ∃ (k : Nat) (c : JSVal), (numericHideout "delta").colorscale[k]? = some c ∧
      (function0 nanHost (numberFeature "delta" 15) (numericHideout "delta")).get? "fillColor"
        = some c ∧
      (function0 nanHost (numberFeature "pop" 15)
        (withColorProp (numericHideout "delta") "pop")).get? "fillColor" = some c ∧
      (function0 nanHost (numberFeature "delta" 15) (numericHideout "delta")).get? "fillOpacity"
        = some (.num (.fin (7 / 10))) ∧
      (function0 nanHost (numberFeature "pop" 15)
        (withColorProp (numericHideout "delta") "pop")).get? "fillOpacity"
        = some (.num (.fin (7 / 10))) ∧
      ∀ key, key ∉ ["weight", "color", "opacity"] →
        (function0 nanHost (numberFeature "delta" 15) (numericHideout "delta")).get? key
          = (function0 nanHost (numberFeature "pop" 15)
              (withColorProp (numericHideout "delta") "pop")).get? key :=
  function0_delta_numeric_same_fill nanHost (numberFeature "delta" 15) (numberFeature "pop" 15)
    (numericHideout "delta") "pop" (.fin 15) rfl (by decide) (by decide) (by decide) (by decide)
    (by decide) (by decide) (Or.inr rfl) rfl rfl rfl (List.cons_ne_nil _ _) (by decide)
    (by decide) (List.cons_ne_nil _ _) (by decide)

/-- C17. For non-empty ascending `classes`, non-empty `colorscale` with
`colorscale.length >= classes.length - 1` and two numbers `v <= w`, the index computed for `v`
is at most the index computed for `w`, in the delta branch and in the generic numeric
branch. -/
theorem bucket_index_monotone (classes : List JSNum) (colorscale : List JSVal) (v w : JSNum)
    (hne : classes ≠ []) (hasc : ascending classes = true)
    (hcne : colorscale ≠ []) (hlen : classes.length - 1 ≤ colorscale.length)
    (hvw : v.le w = true) :
    deltaIndex classes colorscale v ≤ deltaIndex classes colorscale w ∧
      numericIndex classes colorscale v ≤ numericIndex classes colorscale w := by
  rcases classes with _ | ⟨a, _ | ⟨b, rest⟩⟩
  · exact absurd rfl hne
  · cases ha : a.isNaN with
    | false =>
      exact index_monotone_of_numbers [a] colorscale v w hne hasc
        (fun c hc => by rw [List.mem_singleton.mp hc]; exact ha) hcne hlen hvw
    | true =>
      cases a <;> simp [JSNum.isNaN] at ha
      simp [deltaIndex, numericIndex, bucketLoop, classAt, JSNum.ge_nan, JSNum.lt_nan]
  · exact index_monotone_of_numbers (a :: b :: rest) colorscale v w hne hasc
      (ascending_not_nan a b rest hasc) hcne hlen hvw

/-- The numbers `5 <= 15` on thresholds `[0, 10, 20]` and colours `["a", "b", "c"]`. -/
theorem bucket_index_monotone_witness :
    deltaIndex sampleClasses sampleColors (.fin 5) ≤ deltaIndex sampleClasses sampleColors (.fin 15) ∧
      numericIndex sampleClasses sampleColors (.fin 5)
        ≤ numericIndex sampleClasses sampleColors (.fin 15) :=
  bucket_index_monotone sampleClasses sampleColors (.fin 5) (.fin 15) (List.cons_ne_nil _ _)
    (by decide) (List.cons_ne_nil _ _) (by decide) (by decide)

/-! ## Reads of `colorscale` -/

/-- C18. In categorical mode and in generic numeric mode, for every present value, arbitrary
`classes` and arbitrary `colorscale`, the result has either `fillColor = "#d3d3d3"` with
`fillOpacity = 0.3`, or `fillColor = colorscale[k]` for a position `k` of `colorscale` with
`fillOpacity = 0.7`. -/
theorem function0_colorscale_read_in_bounds (host : Host) (feature : Feature) (h : Hideout)
    (hu : feature.properties.prop h.colorProp ≠ .undefined)
    (hn : feature.properties.prop h.colorProp ≠ .null)
    (hmode : (h.categorical = .bool true ∧ ∃ labels, h.labels = some labels) ∨
      ((h.categorical ≠ .bool true ∨ h.labels = none) ∧
        h.colorProp ≠ "delta" ∧ h.colorProp ≠ "none")) :
    ((function0 host feature h).get? "fillColor" = some (.str "#d3d3d3") ∧
      (function0 host feature h).get? "fillOpacity" = some (.num (.fin (3 / 10)))) ∨
    ∃ (k : Nat) (c : JSVal), h.colorscale[k]? = some c ∧
      (function0 host feature h).get? "fillColor" = some c ∧
      (function0 host feature h).get? "fillOpacity" = some (.num (.fin (7 / 10))) := by
  have hfilled : ∀ idx : Int, 0 ≤ idx ∧ idx < (h.colorscale.length : Int) →
      ∃ (k : Nat) (c : JSVal), h.colorscale[k]? = some c ∧
        (withBorder (filledStyle h.style (colorAt h.colorscale idx))).get? "fillColor" = some c ∧
        (withBorder (filledStyle h.style (colorAt h.colorscale idx))).get? "fillOpacity"
          = some (.num (.fin (7 / 10))) := by
    intro idx hidx
    obtain ⟨k, c, hk, hcol⟩ := colorAt_in_range h.colorscale hidx.1 hidx.2
    rw [hcol]
    exact ⟨k, c, hk,
      fill_of_overridden_border (overridden_withBorder (overridden_filledStyle h.style c))⟩
  rcases hmode with ⟨hcat, labels, hl⟩ | ⟨hnc, hd, hnone⟩
  · rw [function0_of_categorical host feature h labels hu hn hcat hl]
    split_ifs with hc
    · exact Or.inr (hfilled _ hc)
    · exact Or.inl
        (fill_of_overridden_border (overridden_withBorder (overridden_noDataStyle h.style)))
  · rw [function0_of_not_categorical host feature h hu hn hnc, if_neg hd, if_neg hnone]
    split_ifs with hnan hc
    · exact Or.inl (fill_of_overridden_fill (overridden_noDataStyle h.style))
    · exact Or.inr (hfilled _ hc)
    · exact Or.inl (fill_of_overridden_fill (overridden_noDataStyle h.style))

/-- The value `7` on the thresholds out of order `[10, 0, 20, 5]`, in generic numeric mode, and
the label `"z"`, which is not in `labels`, in categorical mode. -/
theorem function0_colorscale_read_in_bounds_witness :
    (((function0 nanHost (numberFeature "pop" 7) (unsortedHideout "pop")).get? "fillColor"
          = some (.str "#d3d3d3") ∧
        (function0 nanHost (numberFeature "pop" 7) (unsortedHideout "pop")).get? "fillOpacity"
          = some (.num (.fin (3 / 10)))) ∨
      ∃ (k : Nat) (c : JSVal), (unsortedHideout "pop").colorscale[k]? = some c ∧
        (function0 nanHost (numberFeature "pop" 7) (unsortedHideout "pop")).get? "fillColor"
          = some c ∧
        (function0 nanHost (numberFeature "pop" 7) (unsortedHideout "pop")).get? "fillOpacity"
          = some (.num (.fin (7 / 10)))) ∧
    (((function0 nanHost (stringFeature "kind" "z")
          (categoricalHideout "kind" [.str "a"] [.str "red"])).get? "fillColor"
          = some (.str "#d3d3d3") ∧
        (function0 nanHost (stringFeature "kind" "z")
          (categoricalHideout "kind" [.str "a"] [.str "red"])).get? "fillOpacity"
          = some (.num (.fin (3 / 10)))) ∨
      ∃ (k : Nat) (c : JSVal),
        (categoricalHideout "kind" [.str "a"] [.str "red"]).colorscale[k]? = some c ∧
        (function0 nanHost (stringFeature "kind" "z")
          (categoricalHideout "kind" [.str "a"] [.str "red"])).get? "fillColor" = some c ∧
        (function0 nanHost (stringFeature "kind" "z")
          (categoricalHideout "kind" [.str "a"] [.str "red"])).get? "fillOpacity"
          = some (.num (.fin (7 / 10)))) :=
  ⟨function0_colorscale_read_in_bounds nanHost (numberFeature "pop" 7) (unsortedHideout "pop")
      (by decide) (by decide) (Or.inr ⟨Or.inr rfl, by decide, by decide⟩),
    function0_colorscale_read_in_bounds nanHost (stringFeature "kind" "z")
      (categoricalHideout "kind" [.str "a"] [.str "red"])
      (by decide) (by decide) (Or.inl ⟨rfl, [.str "a"], rfl⟩)⟩

end DashExtensions
